import Mathlib

/-!
# cloudlus: the worker poll cycle and the scenario build periods

A shallow embedding of `cloudlus/worker.go` (`Worker.Run`, `Worker.dojob`) and of
`scen/scenario.go`: the period arithmetic (`timeOf`, `periodTimes`, `nperiods`),
`Validate`, `Load` and `TransformVars`.

The worker talks to a remote server, reads the clock and starts a goroutine.  Each
of these is made explicit:

* the answers of the server in one cycle (`Dial`, `Fetch`, `PushOutfile`, `Push`) and
  the clock reading taken in the deferred function are the fields of `Env`;
* every call that leaves the worker, and every synchronisation of the cycle's main
  goroutine, is recorded as an `Event` in the order in which the main goroutine
  performs it;
* `Worker.Run`'s endless `for` loop is run on a finite list of cycles; the outcome
  `Outcome.running` says that the loop has consumed all of them without returning.

Durations and times are integers (nanoseconds, as `time.Duration` is); byte slices
are lists of numbers.  In the scenario model a Go panic is the value `none`, and the
arithmetic on `float64` values is a parameter.
-/

namespace Cloudlus

/-- Go `error` values that are not nil.  `nojoberr` is the package's sentinel, compared
by identity in `dojob`; every other error is `other`. -/
inductive Error where
  | nojoberr
  | other (msg : String)
deriving DecidableEq, Repr

/-- Modelled from the spec: the element type of `Job.Infiles` (declared in a file that
is not among the sources), `{Name, Data, Cache:boolean}`; `dojob` reads exactly these
three fields. -/
structure File where
  Name : String
  Data : List Nat
  Cache : Bool
deriving DecidableEq, Repr

/-- Where a job's log output goes: the default sink, or the `devnull` file that
`dojob` installs when the worker has `nolog` set. -/
inductive LogSink where
  | default
  | devnull
deriving DecidableEq, Repr

/-- Modelled from the spec: the `Job` type is declared in a file that is not among the
sources.  The record holds the fields that `dojob` reads or writes (`Id`, `Infiles`,
`Timeout`, `WorkerId`, `log`) and the whitelist that `Job.Whitelist` sets; the
command, the outfiles and the result state written by `Execute` are left out. -/
structure Job where
  Id : Nat
  Infiles : List File
  Timeout : Int
  whitelist : List String
  WorkerId : Nat
  log : LogSink
deriving DecidableEq, Repr

/-- Modelled from the spec: `Job.Whitelist` is not among the sources; the worker's
static whitelist is applied to the job ("apply the worker's static whitelist"). -/
def Job.Whitelist (j : Job) (paths : List String) : Job :=
  { j with whitelist := j.whitelist ++ paths }

/-- Modelled from the spec: `Job.AddInfile` is not among the sources.  The spec's merge
rule is "cache entries never overwrite explicitly-supplied infiles of the same name —
cache only fills gaps": a file is added, not marked for caching, only when the job has
no infile of that name. -/
def Job.AddInfile (j : Job) (name : String) (data : List Nat) : Job :=
  if j.Infiles.any (fun f => decide (f.Name = name)) then j
  else { j with Infiles := j.Infiles ++ [{ Name := name, Data := data, Cache := false }] }

/-- The worker's `FileCache map[string][]byte`: a finite map from names to payloads.
The order of its entries stands for the (unspecified) order of a Go `range`. -/
abbrev FileCache := AList (fun _ : String => List Nat)

/-- The `Worker` struct of `worker.go`. -/
structure Worker where
  Id : Nat
  JobTimeout : Int
  ServerAddr : String
  FileCache : FileCache
  Wait : Int
  Whitelist : List String
  lastjob : Int
  MaxIdle : Int
  nolog : Bool
deriving DecidableEq

/-- What the outside world answers during one call of `dojob`: the error of `Dial`, the
result of `client.Fetch`, the errors of `client.PushOutfile` and `client.Push`, and the
value of `time.Now()` read in the deferred function. -/
structure Env where
  dial : Option Error
  fetch : Except Error Job
  pushOutfile : Option Error
  push : Option Error
  now : Int

/-- The observable steps of the main goroutine, in program order. -/
inductive Event where
  /-- Call of `Dial(w.ServerAddr)` -/
  | dial (addr : String)
  /-- Call of `client.Fetch(w)` -/
  | fetch
  /-- Call of `client.Heartbeat(w.Id, j.Id, done)` -/
  | heartbeat (wid jid : Nat)
  /-- The goroutine running `j.Execute(kill, pw)` is started -/
  | execute (j : Job)
  /-- Return of `client.PushOutfile(j.Id, pr)` with the given error -/
  | pushOutfile (jid : Nat) (err : Option Error)
  /-- Receive on `rundone`: the goroutine has finished `Execute` and closed the pipe writer -/
  | rundone
  /-- The deferred `close(done)` -/
  | closeDone
  /-- Call of `client.Push(w, j)` with the job as it is at that moment -/
  | push (j : Job)
  /-- The deferred `client.Close()` -/
  | close
  /-- Call of `log.Print(err)` in `Run` -/
  | log (e : Error)
  /-- Wait of `<-time.After(d)` in `Run` -/
  | sleep (d : Int)
deriving DecidableEq, Repr

/-- Lines 94-98 of `dojob`: the worker-wide timeout override and the whitelist. -/
def applyOverrides (w : Worker) (j : Job) : Job :=
  let j := if w.JobTimeout > 0 then { j with Timeout := w.JobTimeout } else j
  j.Whitelist w.Whitelist

/-- Lines 100-103 of `dojob`, "add precached files":
`for name, data := range w.FileCache { j.AddInfile(name, data) }`. -/
def addPrecached (cache : FileCache) (j : Job) : Job :=
  cache.entries.foldl (fun j e => j.AddInfile e.1 e.2) j

/-- Lines 105-110 of `dojob`, "cache new files needing caching":
`for _, f := range j.Infiles { if f.Cache { w.FileCache[f.Name] = f.Data } }`. -/
def cacheNew (cache : FileCache) (infiles : List File) : FileCache :=
  infiles.foldl (fun c f => if f.Cache then c.insert f.Name f.Data else c) cache

/-- Lines 116-119 of `dojob`: `if w.nolog { j.log = devnull }`. -/
def applyNolog (w : Worker) (j : Job) : Job :=
  if w.nolog then { j with log := LogSink.devnull } else j

/-- The job as it is when the goroutine that executes it is started (lines 94-119). -/
def prepared (w : Worker) (j : Job) : Job :=
  applyNolog w (addPrecached w.FileCache (applyOverrides w j))

/-- The worker's file cache after lines 100-110. -/
def preparedCache (w : Worker) (j : Job) : FileCache :=
  cacheNew w.FileCache (addPrecached w.FileCache (applyOverrides w j)).Infiles

/-- The result of `dojob`: its two return values, the worker afterwards, and the
events of the cycle. -/
structure Result where
  wait : Bool
  err : Option Error
  w : Worker
  trace : List Event
deriving DecidableEq

/-- The deferred function of lines 86-92, run with the named result `err` as the
`return` statement has set it: it pushes the job, stamps `lastjob`, and stores the
push error in `err` only if `err` is nil. -/
def deferredPush (env : Env) (w : Worker) (j : Job) (err : Option Error) :
    Option Error × Worker × List Event :=
  let err2 := env.push
  let w := { w with lastjob := env.now }
  let err := if err = none ∧ err2 ≠ none then err2 else err
  (err, w, [Event.push j])

/-- The deferred calls of a cycle that has fetched a job, in the order Go runs them
(last registered first): `close(done)`, the push function, `client.Close()`. -/
def runDefers (env : Env) (w : Worker) (j : Job) (wait : Bool) (err : Option Error)
    (sofar : List Event) : Result :=
  let p := deferredPush env w j err
  { wait := wait, err := p.1, w := p.2.1,
    trace := sofar ++ [Event.closeDone] ++ p.2.2 ++ [Event.close] }

/-- The method `Worker.dojob` (lines 72-141). -/
def dojob (w : Worker) (env : Env) : Result :=
  match env.dial with
  | some e => { wait := true, err := some e, w := w, trace := [Event.dial w.ServerAddr] }
  | none =>
    match env.fetch with
    | Except.error Error.nojoberr =>
      { wait := false, err := none, w := w,
        trace := [Event.dial w.ServerAddr, Event.fetch, Event.close] }
    | Except.error e =>
      { wait := true, err := some e, w := w,
        trace := [Event.dial w.ServerAddr, Event.fetch, Event.close] }
    | Except.ok j0 =>
      let j := prepared w j0
      let w1 := { w with FileCache := preparedCache w j0 }
      let started := [Event.dial w.ServerAddr, Event.fetch, Event.heartbeat w.Id j.Id,
        Event.execute j]
      match env.pushOutfile with
      | some e =>
        runDefers env w1 j false (some e) (started ++ [Event.pushOutfile j.Id (some e)])
      | none =>
        let j := { j with WorkerId := w.Id, Infiles := [] }
        runDefers env w1 j false none
          (started ++ [Event.pushOutfile j.Id none, Event.rundone])

/-- One pass of `Run`'s loop needs the answers for `dojob` and the value of
`time.Now()` read by the idle check of line 62. -/
structure Cycle where
  env : Env
  now : Int

/-- How far `Run` has got: it has returned with the given error value, or it is still
in its loop after all the cycles supplied. -/
inductive Outcome where
  | returned (err : Option Error)
  | running
deriving DecidableEq, Repr

/-- The outcome of running the loop, the worker afterwards, and all the events. -/
structure RunResult where
  outcome : Outcome
  w : Worker
  trace : List Event
deriving DecidableEq

/-- What one pass through the body of `Run`'s loop does: `Run` returns, or the loop
goes round again. -/
inductive Step where
  | ret (err : Option Error) (w : Worker) (trace : List Event)
  | next (w : Worker) (trace : List Event)
deriving DecidableEq

/-- The events of lines 59-61: the error of the cycle, if any, is logged. -/
def logged (err : Option Error) : List Event :=
  match err with
  | some e => [Event.log e]
  | none => []

/-- The idle check of line 62:
`w.MaxIdle > 0 && time.Now().Sub(w.lastjob) > w.MaxIdle`. -/
def idle (w : Worker) (now : Int) : Bool :=
  decide (w.MaxIdle > 0) && decide (now - w.lastjob > w.MaxIdle)

/-- The events of lines 66-68: the loop sleeps `w.Wait` when `dojob` asked for it. -/
def slept (w : Worker) (wait : Bool) : List Event :=
  if wait then [Event.sleep w.Wait] else []

/-- The body of the `for` loop of `Worker.Run` (lines 58-68). -/
def body (w : Worker) (c : Cycle) : Step :=
  let r := dojob w c.env
  if idle r.w c.now then Step.ret none r.w (r.trace ++ logged r.err)
  else Step.next r.w (r.trace ++ logged r.err ++ slept r.w r.wait)

/-- The `for` loop of `Worker.Run` (lines 57-69) on the given cycles. -/
def loop (w : Worker) : List Cycle → RunResult
  | [] => { outcome := Outcome.running, w := w, trace := [] }
  | c :: cs =>
    match body w c with
    | Step.ret err w1 tr => { outcome := Outcome.returned err, w := w1, trace := tr }
    | Step.next w1 tr =>
      let rest := loop w1 cs
      { outcome := rest.outcome, w := rest.w, trace := tr ++ rest.trace }

/-- Ten seconds, `10 * time.Second`, in nanoseconds. -/
def defaultWait : Int := 10 * 1000000000

/-- The method `Worker.Run` (lines 40-70): `uid` is the fresh worker id, `start` the clock reading
of line 44, `getwd` the error of `os.Getwd`. -/
def Run (w : Worker) (uid : Nat) (start : Int) (getwd : Option Error)
    (cycles : List Cycle) : RunResult :=
  let w := { w with Id := uid, lastjob := start, FileCache := ∅ }
  match getwd with
  | some e => { outcome := Outcome.returned (some e), w := w, trace := [] }
  | none =>
    let w := if w.Wait = 0 then { w with Wait := defaultWait } else w
    loop w cycles

/-- The jobs handed to `client.Push`, in order. -/
def pushes : List Event → List Job
  | [] => []
  | Event.push j :: es => j :: pushes es
  | _ :: es => pushes es

/-- The jobs whose execution was started, in order. -/
def executions : List Event → List Job
  | [] => []
  | Event.execute j :: es => j :: executions es
  | _ :: es => executions es

/-- Whether the event is a call of `client.Push`. -/
def isPush : Event → Bool
  | Event.push _ => true
  | _ => false

/-- Whether the event is the return of `client.PushOutfile`, with or without error. -/
def isPushOutfile : Event → Bool
  | Event.pushOutfile _ _ => true
  | _ => false

/-- Whether the event is the return of `client.PushOutfile` with a nil error: the
whole output stream has been forwarded. -/
def isPushOutfileOk : Event → Bool
  | Event.pushOutfile _ none => true
  | _ => false

/-- Whether the event is the receive on `rundone`: execution has finished. -/
def isRundone : Event → Bool
  | Event.rundone => true
  | _ => false

/-- Whether the event is the close of the heartbeat's `done` channel. -/
def isCloseDone : Event → Bool
  | Event.closeDone => true
  | _ => false

/-- Whether the event is `client.Close()`. -/
def isClose : Event → Bool
  | Event.close => true
  | _ => false

/-- Whether the event is a wait of the loop of `Run`. -/
def isSleep : Event → Bool
  | Event.sleep _ => true
  | _ => false

/-- Whether every event of the trace that satisfies `b` comes strictly after some event
that satisfies `a`. -/
def onlyAfter (a b : Event → Bool) : List Event → Bool
  | [] => true
  | e :: es => if b e then false else if a e then true else onlyAfter a b es

/-- A worker inside the loop of `Run`: empty cache, no timeout override, a poll wait
of ten seconds, no idle ceiling. -/
def sampleWorker : Worker :=
  { Id := 7, JobTimeout := 0, ServerAddr := "srv:9875", FileCache := ∅,
    Wait := defaultWait, Whitelist := [], lastjob := 100, MaxIdle := 0, nolog := false }

/-- A job with one input file that is not marked for caching. -/
def sampleJob : Job :=
  { Id := 1, Infiles := [{ Name := "in.txt", Data := [104, 105], Cache := false }],
    Timeout := 5, whitelist := [], WorkerId := 0, log := LogSink.default }

/-- A cycle in which everything succeeds for `sampleJob`. -/
def okEnv : Env :=
  { dial := none, fetch := Except.ok sampleJob, pushOutfile := none, push := none,
    now := 200 }

/-- A cycle in which `sampleJob` is fetched and `PushOutfile` fails. -/
def outfileErrEnv : Env :=
  { okEnv with pushOutfile := some (Error.other "broken pipe") }

/-- A cycle in which the server has no job. -/
def nojobEnv : Env :=
  { okEnv with fetch := Except.error Error.nojoberr }

/-- Whether the cycle gets a job from the server: `Dial` succeeds and `Fetch` returns
a job. -/
def fetched (env : Env) : Bool :=
  match env.dial, env.fetch with
  | none, Except.ok _ => true
  | _, _ => false

/-- A worker whose `JobTimeout` is negative. -/
def negTimeoutWorker : Worker :=
  { sampleWorker with JobTimeout := -1 }

/-- A worker with a timeout override of thirty and an idle ceiling of fifty. -/
def strictWorker : Worker :=
  { sampleWorker with JobTimeout := 30, MaxIdle := 50 }

/-- A cycle in which `Fetch` fails with an error other than the no-job sentinel. -/
def fetchErrEnv : Env :=
  { okEnv with fetch := Except.error (Error.other "timeout") }

/-- The last infile in the list that is marked `Cache` and has the given name, if there
is one: the infile whose data the loop of lines 105-110 leaves in the cache under that
name. -/
def lastCached (n : String) : List File → Option File
  | [] => none
  | f :: fs =>
    match lastCached n fs with
    | some g => some g
    | none => if f.Cache = true ∧ f.Name = n then some f else none

/-- A job with two infiles of the same name, both marked `Cache`, with different data. -/
def twiceJob : Job :=
  { sampleJob with
    Infiles := [{ Name := "tmpl", Data := [1], Cache := true },
                { Name := "tmpl", Data := [2], Cache := true }] }

/-- A cycle in which everything succeeds for `twiceJob`. -/
def twiceEnv : Env :=
  { okEnv with fetch := Except.ok twiceJob }

/-- A job with one infile marked `Cache` and one that is not. -/
def cachingJob : Job :=
  { sampleJob with
    Infiles := [{ Name := "tmpl", Data := [1, 2, 3], Cache := true },
                { Name := "in.txt", Data := [104, 105], Cache := false }] }

/-- A cycle in which everything succeeds for `cachingJob`. -/
def cachingEnv : Env :=
  { okEnv with fetch := Except.ok cachingJob }

/-- A worker whose cache holds `tmpl` and `in.txt`. -/
def cachedWorker : Worker :=
  { sampleWorker with
    FileCache := ((∅ : FileCache).insert "tmpl" [9, 9]).insert "in.txt" [7] }

end Cloudlus

namespace Scen

/-- The value that a Go `int` (64 bits, two's complement) holds after an arithmetic
operation whose exact result is `x`: `x` reduced modulo `2^64` into the range from
`-2^63` to `2^63 - 1`. -/
def wrap (x : Int) : Int :=
  (x + 9223372036854775808) % 18446744073709551616 - 9223372036854775808

/-- Whether an integer is a value of Go's `int`: at least `-2^63` and below `2^63`. -/
abbrev isInt (x : Int) : Prop :=
  -9223372036854775808 ≤ x ∧ x < 9223372036854775808

/-- A `float64` value, given by its IEEE 754 bit pattern (taken modulo `2^64`).  Only
the comparisons with zero are computed from the bits; the arithmetic that
`TransformVars` performs on such values is a parameter of its model (`Arith`). -/
structure Float64 where
  bits : Nat
deriving DecidableEq, Repr

/-- The constant `0.0`. -/
def Float64.zero : Float64 := { bits := 0 }

/-- The constant `1`. -/
def Float64.one : Float64 := { bits := 0x3FF0000000000000 }

/-- The constant `0.5`. -/
def Float64.half : Float64 := { bits := 0x3FE0000000000000 }

/-- The comparison `x > 0`: the sign bit is clear and the value is neither a zero nor
a NaN. -/
def Float64.gtZero (x : Float64) : Bool :=
  decide (0 < x.bits % 2 ^ 64) && decide (x.bits % 2 ^ 64 ≤ 0x7FF0000000000000)

/-- The comparison `x == 0`: positive or negative zero. -/
def Float64.eqZero (x : Float64) : Bool :=
  decide (x.bits % 2 ^ 64 = 0) || decide (x.bits % 2 ^ 64 = 2 ^ 63)

/-- The `Facility` struct (lines 27-41). -/
structure Facility where
  Proto : String
  Cap : Float64
  Life : Int
  BuildAfter : Int
  FracOfProtos : List String
deriving DecidableEq, Repr

/-- The zero value of `Facility`. -/
def Facility.zero : Facility :=
  { Proto := "", Cap := Float64.zero, Life := 0, BuildAfter := 0, FracOfProtos := [] }

/-- The `Build` struct (lines 52-58). -/
structure Build where
  Time : Int
  Proto : String
  N : Int
  Life : Int
  fac : Facility
deriving DecidableEq, Repr

/-- The zero value of `Build`, which is what `make([]Build, n)` fills a slice with. -/
def Build.zero : Build :=
  { Time := 0, Proto := "", N := 0, Life := 0, fac := Facility.zero }

/-- The function `Alive` (lines 72-74). -/
def Alive (built t life : Int) : Bool :=
  decide (built ≤ t) && (decide (wrap (built + life) ≥ t) || decide (life ≤ 0))

/-- The method `Build.Lifetime` (lines 63-68); the source's `fac.Life` is the `Life` of
the build's own `fac` field. -/
def Build.Lifetime (b : Build) : Int :=
  if b.Life > 0 then b.Life else b.fac.Life

/-- The method `Build.Alive` (line 61). -/
def Build.Alive (b : Build) (t : Int) : Bool :=
  Scen.Alive b.Time t b.Lifetime

/-- The fields of the `Scenario` struct of `scenario.go` (lines 76-118) that the period
arithmetic, `Validate`, `Load` and `TransformVars` read or write.  The fields of Go type
`int` are integers that satisfy `isInt`; every sum, difference, product and quotient
that the code forms of them is reduced by `wrap`, as Go's 64-bit arithmetic does. -/
structure Scenario where
  SimDur : Int
  BuildOffset : Int
  TrailingDur : Int
  BuildPeriod : Int
  Facs : List Facility
  MinPower : List Float64
  MaxPower : List Float64
  Builds : List Build
  File : String
deriving DecidableEq, Repr

/-- The method `Scenario.timeOf` (lines 444-446). -/
def Scenario.timeOf (s : Scenario) (period : Int) : Int :=
  wrap (wrap (wrap (period * s.BuildPeriod) + 1) + s.BuildOffset)

/-- The method `Scenario.nperiods` (lines 460-462).  Go's `/` truncates toward zero and
panics on a zero divisor; `none` is the panic. -/
def Scenario.nperiods (s : Scenario) : Option Int :=
  if s.BuildPeriod = 0 then none
  else
    some (wrap (wrap (Int.tdiv
      (wrap (wrap (wrap (s.SimDur - s.BuildOffset) - s.TrailingDur) - 2)) s.BuildPeriod) + 1))

/-- The method `Scenario.periodTimes` (lines 452-458): a slice of `nperiods()` entries,
the entry at index `i` being `timeOf(i)`.  `make` panics on a negative length; `none`
is a panic. -/
def Scenario.periodTimes (s : Scenario) : Option (List Int) :=
  match s.nperiods with
  | none => none
  | some n =>
    if n < 0 then none
    else some ((List.range n.toNat).map (fun (i : Nat) => s.timeOf (i : Int)))

/-- The errors that `Validate` and `TransformVars` build with `fmt.Errorf`, with the
values that are formatted into the message. -/
inductive ScenError where
  /-- Message "MaxPower length max != MinPower length min" -/
  | powerLengths (max min : Nat)
  /-- Message "number power constraints lmin != number build periods np" -/
  | periods (lmin : Nat) (np : Int)
  /-- Message "param prototype 'proto' is not defined in Facs" -/
  | undefinedProto (proto : String)
  /-- Message "wrong number of vars: want w, got g" -/
  | wrongVars (want : Int) (got : Nat)
deriving DecidableEq, Repr

/-- The method `Scenario.reactors` (lines 120-128): the facilities with `Cap > 0`. -/
def Scenario.reactors (s : Scenario) : List Facility :=
  s.Facs.filter (fun fac => fac.Cap.gtZero)

/-- The method `Scenario.notreactors` (lines 130-138): the facilities with `Cap == 0`. -/
def Scenario.notreactors (s : Scenario) : List Facility :=
  s.Facs.filter (fun fac => fac.Cap.eqZero)

/-- The method `Scenario.nvarsPerPeriod` (lines 142-146).  The length of a slice is
between `0` and `2^63 - 1`, so neither `len(s.Facs) - 1` nor the sum leaves the range of
`int`. -/
def Scenario.nvarsPerPeriod (s : Scenario) : Int :=
  let numFacVars : Int := (s.Facs.length : Int) - 1
  let numPowerVars : Int := 1
  numFacVars + numPowerVars

/-- The method `Scenario.nvars` (line 140): `nvarsPerPeriod() * nperiods()`; it panics
when `nperiods()` does. -/
def Scenario.nvars (s : Scenario) : Option Int :=
  match s.nperiods with
  | none => none
  | some np => some (wrap (s.nvarsPerPeriod * np))

/-- The method `Scenario.Validate` (lines 288-312).  The outer `none` is a panic (of
`nperiods()`); `some none` is the return of a nil error, `some (some e)` the return of
the error `e`.  The prototypes of `Facs` are collected as the keys of a map, and the
first build whose prototype is not among them is reported.  The assignment to `p.fac`
writes to the loop variable, a copy, so the scenario is not changed. -/
def Scenario.Validate (s : Scenario) : Option (Option ScenError) :=
  if s.MinPower.length ≠ s.MaxPower.length then
    some (some (ScenError.powerLengths s.MaxPower.length s.MinPower.length))
  else
    match s.nperiods with
    | none => none
    | some np =>
      let lmin := s.MinPower.length
      if np ≠ (lmin : Int) then some (some (ScenError.periods lmin np))
      else
        let protos := s.Facs.map (fun fac => fac.Proto)
        match s.Builds.find? (fun p => !(protos.contains p.Proto)) with
        | some p => some (some (ScenError.undefinedProto p.Proto))
        | none => some none

/-- The method `Scenario.Load` (lines 314-335) from the point where the file has been
read and decoded into `s`: the file name is stored, empty `Builds` are replaced by
`make([]Build, s.nvars())`, and the scenario is validated.  The result is the return
value of `Validate` (outer `none`: a panic, of `nvars()`, of `make` with a negative
length, or of `Validate`) together with the scenario as `Load` leaves it. -/
def Scenario.Load (s : Scenario) (fname : String) : Option (Option ScenError) × Scenario :=
  let s := { s with File := fname }
  if s.Builds.length = 0 then
    match s.nvars with
    | none => (none, s)
    | some n =>
      if n < 0 then (none, s)
      else
        let s := { s with Builds := List.replicate n.toNat Build.zero }
        (s.Validate, s)
  else (s.Validate, s)

/-- The `float64` arithmetic that `TransformVars` uses, left uninterpreted: addition,
subtraction, multiplication, division, `math.Max`, `math.Floor`, and the conversions
`float64(n)` and `int(x)`.  Everything proved about `TransformVars` holds for every
choice of these operations, IEEE 754 arithmetic among them. -/
structure Arith where
  add : Float64 → Float64 → Float64
  sub : Float64 → Float64 → Float64
  mul : Float64 → Float64 → Float64
  div : Float64 → Float64 → Float64
  max : Float64 → Float64 → Float64
  floor : Float64 → Float64
  ofInt : Int → Float64
  toInt : Float64 → Int

/-- A Go map `map[string][]Build`; a missing key reads as the nil slice.  The order of
the entries stands for the (unspecified) order of a Go `range`. -/
abbrev BuildMap := AList (fun _ : String => List Build)

/-- A Go map `map[string]float64`; a missing key reads as `0`. -/
abbrev CapError := AList (fun _ : String => Float64)

/-- The read `builds[proto]`. -/
def buildsOf (builds : BuildMap) (proto : String) : List Build :=
  (builds.lookup proto).getD []

/-- The read `caperror[proto]`. -/
def caperrOf (caperror : CapError) (proto : String) : Float64 :=
  (caperror.lookup proto).getD Float64.zero

/-- The index expression `xs[k]` of Go: it panics (`none`) unless `0 <= k < len(xs)`. -/
def index {α : Type} (xs : List α) (k : Int) : Option α :=
  if k < 0 then none else xs[k.toNat]?

/-- The method `Scenario.periodFacOrder` (lines 148-157).  The slice expression
`s.reactors()[1:]` panics (`none`) when there is no reactor.  The source's `return`
names only `facs`, so the named result `implicitreactor` has its zero value. -/
def Scenario.periodFacOrder (s : Scenario) : Option (List Facility × Facility) :=
  match s.reactors with
  | [] => none
  | _ :: rest => some (rest ++ s.notreactors, Facility.zero)

/-- The method `Scenario.naliveproto` (lines 262-273). -/
def naliveproto (facs : BuildMap) (t : Int) (protos : List String) : Int :=
  protos.foldl
    (fun count proto =>
      (buildsOf facs proto).foldl (fun count b => if b.Alive t then count + 1 else count)
        count)
    0

/-- The method `Scenario.powercap` (lines 275-285); the source's `fac.Cap * b.N` is the
capacity of the build's own `fac` times the number built. -/
def powercap (ar : Arith) (builds : BuildMap) (t : Int) : Float64 :=
  builds.entries.foldl
    (fun pow e =>
      e.2.foldl
        (fun pow b => if b.Alive t then ar.add pow (ar.mul b.fac.Cap (ar.ofInt b.N)) else pow)
        pow)
    Float64.zero

/-- The two maps that the loop of `TransformVars` updates. -/
structure Deployed where
  builds : BuildMap
  caperror : CapError

/-- The statement `builds[fac.Proto] = append(builds[fac.Proto], Build{...})` with
`Time: t, Proto: fac.Proto, N: nbuild, fac: fac`, after `caperror[fac.Proto] = caperr`. -/
def Deployed.record (d : Deployed) (t : Int) (fac : Facility) (nbuild : Int)
    (caperr : Float64) : Deployed :=
  { builds := d.builds.insert fac.Proto
      (buildsOf d.builds fac.Proto ++
        [{ Time := t, Proto := fac.Proto, N := nbuild, Life := 0, fac := fac }]),
    caperror := d.caperror.insert fac.Proto caperr }

/-- The state of the loop "handle reactor builds": the maps, `reactorfrac`, and whether
the loop has left through `break`. -/
structure ReactorLoop where
  d : Deployed
  reactorfrac : Float64
  broken : Bool

/-- One pass of the loop "handle reactor builds" of `TransformVars` (lines 197-221) for
the counter `j`; after a `break` the remaining passes do nothing.  The source's
`math.Max` with the single argument `math.Floor(...)` is read like its two siblings,
`math.Max(0, math.Floor(...))`. -/
def reactorPass (ar : Arith) (s : Scenario) (vars : List Float64) (varfacs : List Facility)
    (i t : Int) (captobuild : Float64) (st : ReactorLoop) (j : Int) : Option ReactorLoop :=
  if st.broken then some st
  else
    match index vars (wrap (wrap (s.BuildPeriod * i) + j)) with
    | none => none
    | some val =>
      match index varfacs j with
      | none => none
      | some fac =>
        if fac.Cap.gtZero then
          let facfrac := ar.mul (ar.sub Float64.one st.reactorfrac) val
          let reactorfrac := ar.add st.reactorfrac facfrac
          let caperr := caperrOf st.d.caperror fac.Proto
          let wantcap := ar.add (ar.mul facfrac captobuild) caperr
          let nbuild :=
            ar.toInt (ar.max Float64.zero
              (ar.floor (ar.add (ar.div wantcap fac.Cap) Float64.half)))
          some { d := st.d.record t fac nbuild
                   (ar.sub wantcap (ar.mul (ar.ofInt nbuild) fac.Cap)),
                 reactorfrac := reactorfrac, broken := false }
        else some { st with broken := true }

/-- One pass of the loop "handle other facilities" of `TransformVars` (lines 240-256)
for the counter `j`; `wantcap` is the variable of the implicit-reactor block, which the
source subtracts from here. -/
def otherPass (ar : Arith) (s : Scenario) (vars : List Float64) (varfacs : List Facility)
    (i t : Int) (wantcap : Float64) (d : Deployed) (j : Int) : Option Deployed :=
  match index vars (wrap (wrap (s.BuildPeriod * i) + j)) with
  | none => none
  | some facfrac =>
    match index varfacs j with
    | none => none
    | some fac =>
      let caperr := caperrOf d.caperror fac.Proto
      let wantn :=
        ar.add (ar.mul facfrac (ar.ofInt (naliveproto d.builds t fac.FracOfProtos))) caperr
      let nbuild := ar.toInt (ar.max Float64.zero (ar.floor (ar.add wantn Float64.half)))
      some (d.record t fac nbuild (ar.sub wantcap (ar.ofInt nbuild)))

/-- The counters `from, from + 1, ...` below `to`: the values that `j` takes in a loop
`for j = from; j < to; j++`. -/
def counters (start stop : Int) : List Int :=
  (List.range (stop - start).toNat).map (fun (k : Nat) => start + (k : Int))

/-- The body of the loop over the build periods in `TransformVars` (lines 187-257), for
the index `i` and the period time `t`.  The result is `none` when an index expression
panics. -/
def periodPass (ar : Arith) (s : Scenario) (vars : List Float64) (varfacs : List Facility)
    (implicitreactor : Facility) (d : Deployed) (it : Nat × Int) : Option Deployed :=
  let i : Int := (it.1 : Int)
  let t := it.2
  match index s.MinPower t with
  | none => none
  | some minpow =>
    match index s.MaxPower t with
    | none => none
    | some maxpow =>
      let currpower := powercap ar d.builds t
      match index vars (wrap (s.BuildPeriod * i)) with
      | none => none
      | some powervar =>
        let captobuild := ar.max (ar.sub minpow currpower) Float64.zero
        let powerrange := ar.sub maxpow (ar.add currpower captobuild)
        let captobuild := ar.add captobuild (ar.mul powervar powerrange)
        match (counters 1 s.nvarsPerPeriod).foldlM
            (reactorPass ar s vars varfacs i t captobuild)
            { d := d, reactorfrac := Float64.zero, broken := false } with
        | none => none
        | some st =>
          let fac := implicitreactor
          let facfrac := ar.sub Float64.one st.reactorfrac
          let caperr := caperrOf st.d.caperror fac.Proto
          let wantcap := ar.add (ar.mul facfrac captobuild) caperr
          let nbuild :=
            ar.toInt (ar.max Float64.zero
              (ar.floor (ar.add (ar.div wantcap fac.Cap) Float64.half)))
          let d1 := st.d.record t fac nbuild
            (ar.sub wantcap (ar.mul (ar.ofInt nbuild) fac.Cap))
          (counters 0 s.nvarsPerPeriod).foldlM (otherPass ar s vars varfacs i t wantcap) d1

/-- The result of `TransformVars`: a nil map with an error, or the build map with a nil
error. -/
inductive Transformed where
  | failed (err : ScenError)
  | built (builds : BuildMap)

/-- The method `Scenario.TransformVars` (lines 172-260).  The outer `none` is a panic:
of `Validate`, of `nvars()`, of `periodFacOrder()`, of `periodTimes()`, or of an index
expression in the loop.  The statement `builds[b.Proto] = b` of the first loop stores
the build under its prototype. -/
def Scenario.TransformVars (ar : Arith) (s : Scenario) (vars : List Float64) :
    Option Transformed :=
  match s.Validate with
  | none => none
  | some (some err) => some (Transformed.failed err)
  | some none =>
    match s.nvars with
    | none => none
    | some nv =>
      if (vars.length : Int) ≠ nv then
        some (Transformed.failed (ScenError.wrongVars nv vars.length))
      else
        let builds : BuildMap := s.Builds.foldl (fun m b => m.insert b.Proto [b]) ∅
        match s.periodFacOrder with
        | none => none
        | some (varfacs, implicitreactor) =>
          match s.periodTimes with
          | none => none
          | some times =>
            match times.enum.foldlM (periodPass ar s vars varfacs implicitreactor)
                { builds := builds, caperror := ∅ } with
            | none => none
            | some d => some (Transformed.built d.builds)

/-- A ten-year simulation with deployments every twelve months after the first six and
a wind-down of twenty-four months. -/
def sampleScenario : Scenario :=
  { SimDur := 120, BuildOffset := 6, TrailingDur := 24, BuildPeriod := 12,
    Facs := [{ Proto := "reactor", Cap := { bits := 0x408F400000000000 }, Life := 720,
               BuildAfter := 0, FracOfProtos := [] }],
    MinPower := List.replicate 8 Float64.zero,
    MaxPower := List.replicate 8 Float64.zero,
    Builds := [], File := "" }

/-- A decoded scenario file without `Builds`: one reactor prototype, a deployment every
twelve months, eight build periods and eight power constraints of each kind. -/
def noBuildsScenario : Scenario :=
  { sampleScenario with Builds := [], File := "" }

/-- A scenario whose `BuildPeriod` is zero and whose only build names a prototype that
no facility has. -/
def zeroPeriodScenario : Scenario :=
  { SimDur := 120, BuildOffset := 6, TrailingDur := 24, BuildPeriod := 0,
    Facs := [], MinPower := [], MaxPower := [],
    Builds := [{ Time := 1, Proto := "ghost", N := 1, Life := 0, fac := Facility.zero }],
    File := "" }

/-- The scenario `sampleScenario` with one initial build of its reactor and one of a
prototype that is not in `Facs`. -/
def ghostScenario : Scenario :=
  { sampleScenario with
    Builds := [{ Time := 1, Proto := "reactor", N := 2, Life := 0, fac := Facility.zero },
               { Time := 1, Proto := "ghost", N := 1, Life := 0, fac := Facility.zero }] }

/-- Eight variables, one per build period of `sampleScenario`, all `0.0`. -/
def sampleVars : List Float64 := List.replicate 8 Float64.zero

/-- A scenario whose fields are values of `int` close to its bounds: the simulation
lasts `2^63 - 1` timesteps, the build offset and the build period are `2^62`, and the
trailing duration is `-2^62`. -/
def overflowScenario : Scenario :=
  { SimDur := 9223372036854775807, BuildOffset := 4611686018427387904,
    TrailingDur := -4611686018427387904, BuildPeriod := 4611686018427387904,
    Facs := [], MinPower := [], MaxPower := [], Builds := [], File := "" }

end Scen

namespace Cloudlus

/-! ## Shape of a cycle -/

theorem addInfile_Id (j : Job) (name : String) (data : List Nat) :
    (j.AddInfile name data).Id = j.Id := by
  unfold Job.AddInfile
  split <;> rfl

theorem addInfile_Timeout (j : Job) (name : String) (data : List Nat) :
    (j.AddInfile name data).Timeout = j.Timeout := by
  unfold Job.AddInfile
  split <;> rfl

theorem foldl_addInfile_Id (es : List (Sigma fun _ : String => List Nat)) (j : Job) :
    (es.foldl (fun j e => j.AddInfile e.1 e.2) j).Id = j.Id := by
  induction es generalizing j with
  | nil => rfl
  | cons e es ih => simp only [List.foldl_cons, ih, addInfile_Id]

theorem foldl_addInfile_Timeout (es : List (Sigma fun _ : String => List Nat)) (j : Job) :
    (es.foldl (fun j e => j.AddInfile e.1 e.2) j).Timeout = j.Timeout := by
  induction es generalizing j with
  | nil => rfl
  | cons e es ih => simp only [List.foldl_cons, ih, addInfile_Timeout]

theorem applyOverrides_Id (w : Worker) (j : Job) : (applyOverrides w j).Id = j.Id := by
  unfold applyOverrides Job.Whitelist
  split <;> rfl

theorem prepared_Id (w : Worker) (j : Job) : (prepared w j).Id = j.Id := by
  unfold prepared applyNolog addPrecached
  split <;> simp [foldl_addInfile_Id, applyOverrides_Id]

theorem prepared_Timeout (w : Worker) (j : Job) :
    (prepared w j).Timeout = (applyOverrides w j).Timeout := by
  unfold prepared applyNolog addPrecached
  split <;> simp [foldl_addInfile_Timeout]

/-- The cycle of a fetched job, written out. -/
theorem dojob_fetched (w : Worker) (env : Env) (j : Job) (hd : env.dial = none)
    (hf : env.fetch = Except.ok j) :
    dojob w env =
      match env.pushOutfile with
      | some e =>
        runDefers env { w with FileCache := preparedCache w j } (prepared w j) false (some e)
          ([Event.dial w.ServerAddr, Event.fetch, Event.heartbeat w.Id (prepared w j).Id,
            Event.execute (prepared w j)] ++ [Event.pushOutfile (prepared w j).Id (some e)])
      | none =>
        runDefers env { w with FileCache := preparedCache w j }
          { prepared w j with WorkerId := w.Id, Infiles := [] } false none
          ([Event.dial w.ServerAddr, Event.fetch, Event.heartbeat w.Id (prepared w j).Id,
            Event.execute (prepared w j)] ++ [Event.pushOutfile (prepared w j).Id none,
            Event.rundone]) := by
  unfold dojob
  rw [hd, hf]

/-- The loop of `Run` returns nothing but nil. -/
theorem loop_outcome (cs : List Cycle) (w : Worker) :
    (loop w cs).outcome = Outcome.running ∨ (loop w cs).outcome = Outcome.returned none := by
  induction cs generalizing w with
  | nil => exact Or.inl rfl
  | cons c cs ih =>
    unfold loop body
    by_cases h : idle (dojob w c.env).w c.now = true
    · simp [h]
    · simp [h]
      exact ih _

/-- The worker's idle ceiling is never changed by a cycle. -/
theorem dojob_MaxIdle (w : Worker) (env : Env) : (dojob w env).w.MaxIdle = w.MaxIdle := by
  unfold dojob
  cases env.dial with
  | some e => rfl
  | none =>
    cases env.fetch with
    | error e => cases e <;> rfl
    | ok j => cases env.pushOutfile <;> rfl

/-- One unfolding of the loop of `Run`. -/
theorem loop_cons (w : Worker) (c : Cycle) (cs : List Cycle) :
    loop w (c :: cs) =
      match body w c with
      | Step.ret err w1 tr => { outcome := Outcome.returned err, w := w1, trace := tr }
      | Step.next w1 tr =>
        { outcome := (loop w1 cs).outcome, w := (loop w1 cs).w,
          trace := tr ++ (loop w1 cs).trace } := by
  rw [loop]

/-- A cycle stamps `lastjob` exactly when it has fetched a job. -/
theorem dojob_lastjob (w : Worker) (env : Env) :
    (dojob w env).w.lastjob = (if fetched env then env.now else w.lastjob) := by
  unfold dojob fetched
  cases env.dial with
  | some e => rfl
  | none =>
    cases env.fetch with
    | error e => cases e <;> rfl
    | ok j => cases env.pushOutfile <;> rfl

/-- With no idle ceiling the loop of `Run` is still running after any cycles. -/
theorem loop_running_of_MaxIdle_zero (cs : List Cycle) (w : Worker) (h : w.MaxIdle = 0) :
    (loop w cs).outcome = Outcome.running := by
  induction cs generalizing w with
  | nil => rfl
  | cons c cs ih =>
    have hm : (dojob w c.env).w.MaxIdle = 0 := by rw [dojob_MaxIdle, h]
    have hi : idle (dojob w c.env).w c.now = false := by simp [idle, hm]
    unfold loop body
    simp [hi]
    exact ih _ hm

/-! ## Merging the cache into a job, and updating the cache -/

theorem applyOverrides_Infiles (w : Worker) (j : Job) :
    (applyOverrides w j).Infiles = j.Infiles := by
  unfold applyOverrides Job.Whitelist
  split <;> rfl

theorem applyNolog_Infiles (w : Worker) (j : Job) : (applyNolog w j).Infiles = j.Infiles := by
  unfold applyNolog
  split <;> rfl

/-- The merge loop only appends: what it appends are cache entries, not marked for
caching, under names the job did not have. -/
theorem foldl_addInfile_appends (es : List (Sigma fun _ : String => List Nat)) (j : Job) :
    ∃ added, (es.foldl (fun j e => j.AddInfile e.1 e.2) j).Infiles = j.Infiles ++ added ∧
      ∀ f ∈ added, (∀ g ∈ j.Infiles, g.Name ≠ f.Name) ∧
        (⟨f.Name, f.Data⟩ : Sigma fun _ : String => List Nat) ∈ es ∧ f.Cache = false := by
  induction es generalizing j with
  | nil => exact ⟨[], by simp, by simp⟩
  | cons e es ih =>
    rw [List.foldl_cons]
    by_cases hany : j.Infiles.any (fun f => decide (f.Name = e.1)) = true
    · have hj : j.AddInfile e.1 e.2 = j := by simp [Job.AddInfile, hany]
      rw [hj]
      obtain ⟨added, h1, h2⟩ := ih j
      refine ⟨added, h1, ?_⟩
      intro f hf
      obtain ⟨a, b, c⟩ := h2 f hf
      exact ⟨a, List.mem_cons_of_mem _ b, c⟩
    · have hj : (j.AddInfile e.1 e.2).Infiles
          = j.Infiles ++ [{ Name := e.1, Data := e.2, Cache := false }] := by
        simp [Job.AddInfile, hany]
      obtain ⟨added, h1, h2⟩ := ih (j.AddInfile e.1 e.2)
      refine ⟨{ Name := e.1, Data := e.2, Cache := false } :: added, ?_, ?_⟩
      · rw [h1, hj]
        simp
      · intro f hf
        rcases List.mem_cons.mp hf with hf0 | hf1
        · subst hf0
          refine ⟨?_, by simp, rfl⟩
          intro g hg hname
          apply hany
          rw [List.any_eq_true]
          exact ⟨g, hg, by simpa using hname⟩
        · obtain ⟨a, b, c⟩ := h2 f hf1
          refine ⟨?_, List.mem_cons_of_mem _ b, c⟩
          intro g hg
          apply a g
          rw [hj]
          exact List.mem_append_left _ hg

/-- The merge loop fills every gap: a cache entry whose name the job does not have
ends up among the job's infiles, with the cached payload. -/
theorem foldl_addInfile_fills (es : List (Sigma fun _ : String => List Nat)) (j : Job)
    (hnd : es.NodupKeys) (n : String) (d : List Nat)
    (hmem : (⟨n, d⟩ : Sigma fun _ : String => List Nat) ∈ es)
    (hgap : ∀ g ∈ j.Infiles, g.Name ≠ n) :
    ({ Name := n, Data := d, Cache := false } : File)
      ∈ (es.foldl (fun j e => j.AddInfile e.1 e.2) j).Infiles := by
  induction es generalizing j with
  | nil => cases hmem
  | cons e es ih =>
    rw [List.foldl_cons]
    rw [List.nodupKeys_cons] at hnd
    rcases List.mem_cons.mp hmem with he | hin
    · subst he
      have hany : ¬ (j.Infiles.any (fun f => decide (f.Name = n)) = true) := by
        rw [List.any_eq_true]
        rintro ⟨g, hg, hname⟩
        exact hgap g hg (by simpa using hname)
      have hj : (j.AddInfile n d).Infiles
          = j.Infiles ++ [{ Name := n, Data := d, Cache := false }] := by
        simp [Job.AddInfile, hany]
      obtain ⟨added, h1, _⟩ := foldl_addInfile_appends es (j.AddInfile n d)
      show _ ∈ (es.foldl (fun j e => j.AddInfile e.1 e.2) (j.AddInfile n d)).Infiles
      rw [h1, hj]
      simp
    · have hne : e.1 ≠ n := by
        intro h
        apply hnd.1
        rw [h]
        exact List.mem_keys_of_mem hin
      apply ih _ hnd.2 hin
      intro g hg
      unfold Job.AddInfile at hg
      split at hg
      · exact hgap g hg
      · rcases List.mem_append.mp hg with h1 | h1
        · exact hgap g h1
        · simp at h1
          rw [h1]
          exact hne

theorem lastCached_cons (n : String) (f : File) (fs : List File) :
    lastCached n (f :: fs) =
      match lastCached n fs with
      | some g => some g
      | none => if f.Cache = true ∧ f.Name = n then some f else none := rfl

/-- What the loop of lines 105-110 leaves in the cache under each name. -/
theorem cacheNew_lookup (infiles : List File) (cache : FileCache) (n : String) :
    (cacheNew cache infiles).lookup n =
      match lastCached n infiles with
      | some f => some f.Data
      | none => cache.lookup n := by
  induction infiles generalizing cache with
  | nil => rfl
  | cons f fs ih =>
    unfold cacheNew at ih ⊢
    rw [List.foldl_cons, ih, lastCached_cons]
    cases lastCached n fs with
    | some g => rfl
    | none =>
      by_cases hc : f.Cache = true
      · by_cases hn : f.Name = n
        · subst hn
          simp [hc, AList.lookup_insert]
        · have hn2 : n ≠ f.Name := fun h => hn h.symm
          simp [hc, hn, AList.lookup_insert_ne hn2]
      · simp [hc]

/-- An infile found by `lastCached` is a `Cache`-marked infile of that name. -/
theorem lastCached_some (n : String) (fs : List File) (g : File)
    (h : lastCached n fs = some g) : g ∈ fs ∧ g.Cache = true ∧ g.Name = n := by
  induction fs with
  | nil => cases h
  | cons f fs ih =>
    rw [lastCached_cons] at h
    cases hl : lastCached n fs with
    | some g2 =>
      rw [hl] at h
      cases h
      obtain ⟨a, b, c⟩ := ih hl
      exact ⟨List.mem_cons_of_mem _ a, b, c⟩
    | none =>
      rw [hl] at h
      by_cases hc : f.Cache = true ∧ f.Name = n
      · simp [hc] at h
        subst h
        exact ⟨List.mem_cons_self _ _, hc.1, hc.2⟩
      · simp [hc] at h

/-- A `Cache`-marked infile of a name makes `lastCached` find one. -/
theorem lastCached_isSome (n : String) (fs : List File) (f : File) (hf : f ∈ fs)
    (hc : f.Cache = true) (hn : f.Name = n) : ∃ g, lastCached n fs = some g := by
  induction fs with
  | nil => cases hf
  | cons f0 fs ih =>
    rw [lastCached_cons]
    cases hl : lastCached n fs with
    | some g2 => exact ⟨g2, rfl⟩
    | none =>
      rcases List.mem_cons.mp hf with h0 | h1
      · subst h0
        exact ⟨f, by simp [hc, hn]⟩
      · obtain ⟨g, hg⟩ := ih h1
        rw [hl] at hg
        cases hg

/-- Appending infiles that are not marked `Cache` does not change `lastCached`. -/
theorem lastCached_append (n : String) (fs added : List File)
    (h : ∀ f ∈ added, f.Cache = false) : lastCached n (fs ++ added) = lastCached n fs := by
  have hadd : lastCached n added = none := by
    cases hl : lastCached n added with
    | none => rfl
    | some g =>
      obtain ⟨a, b, _⟩ := lastCached_some n added g hl
      rw [h g a] at b
      cases b
  induction fs with
  | nil => simpa using hadd
  | cons f fs ih =>
    rw [List.cons_append]
    rw [lastCached_cons, lastCached_cons, ih]

/-- The infiles of the job that is executed: those of the fetched job followed by the
cache entries that fill its gaps. -/
theorem prepared_Infiles (w : Worker) (j : Job) :
    ∃ added, (prepared w j).Infiles = j.Infiles ++ added ∧
      ∀ f ∈ added, (∀ g ∈ j.Infiles, g.Name ≠ f.Name) ∧
        w.FileCache.lookup f.Name = some f.Data ∧ f.Cache = false := by
  obtain ⟨added, h1, h2⟩ := foldl_addInfile_appends w.FileCache.entries (applyOverrides w j)
  rw [applyOverrides_Infiles] at h1 h2
  refine ⟨added, ?_, ?_⟩
  · unfold prepared addPrecached
    rw [applyNolog_Infiles]
    exact h1
  · intro f hf
    obtain ⟨a, b, c⟩ := h2 f hf
    exact ⟨a, Option.mem_def.mp (AList.mem_lookup_iff.mpr b), c⟩

/-- The executed job has every cache entry whose name the fetched job lacks. -/
theorem prepared_fills (w : Worker) (j : Job) (n : String) (d : List Nat)
    (hl : w.FileCache.lookup n = some d) (hgap : ∀ g ∈ j.Infiles, g.Name ≠ n) :
    ({ Name := n, Data := d, Cache := false } : File) ∈ (prepared w j).Infiles := by
  unfold prepared addPrecached
  rw [applyNolog_Infiles]
  apply foldl_addInfile_fills _ _ w.FileCache.nodupKeys n d
  · exact AList.mem_lookup_iff.mp (Option.mem_def.mpr hl)
  · rw [applyOverrides_Infiles]
    exact hgap

/-- The cache after the Preparing step, name by name. -/
theorem preparedCache_lookup (w : Worker) (j : Job) (n : String) :
    (preparedCache w j).lookup n =
      match lastCached n j.Infiles with
      | some f => some f.Data
      | none => w.FileCache.lookup n := by
  obtain ⟨added, h1, h2⟩ := foldl_addInfile_appends w.FileCache.entries (applyOverrides w j)
  rw [applyOverrides_Infiles] at h1 h2
  unfold preparedCache addPrecached
  rw [cacheNew_lookup, h1, lastCached_append n j.Infiles added (fun f hf => (h2 f hf).2.2)]

/-- The executions and the cache of a cycle that has fetched a job. -/
theorem dojob_fetched_parts (w : Worker) (env : Env) (j : Job) (hd : env.dial = none)
    (hf : env.fetch = Except.ok j) :
    executions (dojob w env).trace = [prepared w j] ∧
    (dojob w env).w.FileCache = preparedCache w j := by
  rw [dojob_fetched w env j hd hf]
  cases env.pushOutfile <;> simp [runDefers, deferredPush, executions]

/-! ## The claims -/

/-- C1, the code at the failing input: a worker with an empty cache fetches `sampleJob`,
which has one infile, and `PushOutfile` fails; the one job handed to `client.Push`
still carries that infile, so its `Infiles` is not empty. -/
theorem dojob_pushOutfile_error_pushes_infiles :
    (pushes (dojob sampleWorker outfileErrEnv).trace).map Job.Infiles
      = [[{ Name := "in.txt", Data := [104, 105], Cache := false }]] := by
  decide

/-- C2, the code at the failing input: when `Fetch` answers with the no-job sentinel,
`dojob` returns a nil error and `wait = false`; on three such cycles in a row the loop
of `Run` dials and fetches three times and never waits in between. -/
theorem dojob_nojob_does_not_wait :
    (dojob sampleWorker nojobEnv).wait = false ∧
    (dojob sampleWorker nojobEnv).err = none ∧
    (loop sampleWorker [⟨nojobEnv, 101⟩, ⟨nojobEnv, 102⟩, ⟨nojobEnv, 103⟩]).trace
      = [Event.dial "srv:9875", Event.fetch, Event.close,
         Event.dial "srv:9875", Event.fetch, Event.close,
         Event.dial "srv:9875", Event.fetch, Event.close] ∧
    (loop sampleWorker [⟨nojobEnv, 101⟩, ⟨nojobEnv, 102⟩, ⟨nojobEnv, 103⟩]).trace.any isSleep
      = false := by
  decide

/-- C3: in a cycle in which `Fetch` returns a job, `client.Push` is called exactly once,
with that job, whether or not `PushOutfile` failed; the job's execution is started at
most once; and `dojob` returns the error of `PushOutfile` if there is one, otherwise
the error of `Push` if there is one, otherwise nil. -/
theorem dojob_pushes_once (w : Worker) (env : Env) (j : Job) (hd : env.dial = none)
    (hf : env.fetch = Except.ok j) :
    (∃ p, pushes (dojob w env).trace = [p] ∧ p.Id = j.Id) ∧
    (executions (dojob w env).trace).length ≤ 1 ∧
    (dojob w env).err =
      (match env.pushOutfile with
       | some e => some e
       | none => env.push) := by
  rw [dojob_fetched w env j hd hf]
  cases hp : env.pushOutfile with
  | some e =>
    refine ⟨⟨prepared w j, ?_, prepared_Id w j⟩, ?_, ?_⟩
    · simp [runDefers, deferredPush, pushes]
    · simp [runDefers, deferredPush, executions]
    · simp [runDefers, deferredPush]
  | none =>
    refine ⟨⟨{ prepared w j with WorkerId := w.Id, Infiles := [] }, ?_, prepared_Id w j⟩, ?_, ?_⟩
    · simp [runDefers, deferredPush, pushes]
    · simp [runDefers, deferredPush, executions]
    · cases h2 : env.push <;> simp [runDefers, deferredPush, h2]

theorem dojob_pushes_once_witness :
    (okEnv.dial = none ∧ okEnv.fetch = Except.ok sampleJob) ∧
    ((∃ p, pushes (dojob sampleWorker okEnv).trace = [p] ∧ p.Id = sampleJob.Id) ∧
     (executions (dojob sampleWorker okEnv).trace).length ≤ 1 ∧
     (dojob sampleWorker okEnv).err =
       (match okEnv.pushOutfile with
        | some e => some e
        | none => okEnv.push)) :=
  ⟨⟨rfl, rfl⟩, dojob_pushes_once sampleWorker okEnv sampleJob rfl rfl⟩

/-- C4, the code at the failing input: a worker whose `JobTimeout` is -1, which is not
zero, fetches `sampleJob` with timeout 5; the job that is executed has timeout 5, not
-1, although the comment on `JobTimeout` says that a nonzero value overrides the
timeout of each job. -/
theorem negative_jobTimeout_not_applied :
    negTimeoutWorker.JobTimeout ≠ 0 ∧
    (executions (dojob negTimeoutWorker okEnv).trace).map Job.Timeout = [sampleJob.Timeout] ∧
    sampleJob.Timeout ≠ negTimeoutWorker.JobTimeout := by
  decide

/-- What the guard `w.JobTimeout > 0` of line 94 does: in a cycle that fetches a job,
exactly one job is executed; when the worker's `JobTimeout` is positive its timeout is
the worker's `JobTimeout`, whatever the job specified, and when `JobTimeout` is zero or
negative its timeout is the job's own. -/
theorem dojob_timeout_override (w : Worker) (env : Env) (j : Job) (hd : env.dial = none)
    (hf : env.fetch = Except.ok j) :
    ∃ x, executions (dojob w env).trace = [x] ∧
      (0 < w.JobTimeout → x.Timeout = w.JobTimeout) ∧
      (w.JobTimeout ≤ 0 → x.Timeout = j.Timeout) := by
  refine ⟨prepared w j, ?_, ?_, ?_⟩
  · rw [dojob_fetched w env j hd hf]
    cases env.pushOutfile <;> simp [runDefers, deferredPush, executions]
  · intro h
    rw [prepared_Timeout]
    simp [applyOverrides, Job.Whitelist, h]
  · intro h
    rw [prepared_Timeout]
    have h2 : ¬ (w.JobTimeout > 0) := by omega
    simp [applyOverrides, Job.Whitelist, h2]

theorem dojob_timeout_override_witness :
    (okEnv.dial = none ∧ okEnv.fetch = Except.ok sampleJob) ∧
    ∃ x, executions (dojob strictWorker okEnv).trace = [x] ∧
      (0 < strictWorker.JobTimeout → x.Timeout = strictWorker.JobTimeout) ∧
      (strictWorker.JobTimeout ≤ 0 → x.Timeout = sampleJob.Timeout) :=
  ⟨⟨rfl, rfl⟩, dojob_timeout_override strictWorker okEnv sampleJob rfl rfl⟩

/-- C5: if `Dial` fails with `e`, or `Dial` succeeds and `Fetch` fails with an error `e`
other than the no-job sentinel, then `dojob` returns `e` with `wait = true`, its only
calls are `Dial`, `Fetch` and `Close` (no `Execute`, `PushOutfile` or `Push`), and the
worker, with its `FileCache` and `lastjob`, is unchanged.  In `Run` the pass through
the loop body never returns an error: it logs `e` and either takes the idle exit with
a nil error or sleeps `w.Wait` and goes round again; and the loop as a whole never
returns that error. -/
theorem dojob_transport_error (w : Worker) (env : Env) (e : Error)
    (h : env.dial = some e ∨
      (env.dial = none ∧ env.fetch = Except.error e ∧ e ≠ Error.nojoberr)) :
    (dojob w env).wait = true ∧ (dojob w env).err = some e ∧
    (∀ ev ∈ (dojob w env).trace,
      ev = Event.dial w.ServerAddr ∨ ev = Event.fetch ∨ ev = Event.close) ∧
    executions (dojob w env).trace = [] ∧ pushes (dojob w env).trace = [] ∧
    (dojob w env).w = w ∧
    (∀ now, body w ⟨env, now⟩ =
      if idle w now then Step.ret none w ((dojob w env).trace ++ [Event.log e])
      else Step.next w ((dojob w env).trace ++ [Event.log e] ++ [Event.sleep w.Wait])) ∧
    (∀ now cs, (loop w (⟨env, now⟩ :: cs)).outcome ≠ Outcome.returned (some e)) := by
  have key : dojob w env = Result.mk true (some e) w [Event.dial w.ServerAddr] ∨
      dojob w env =
        Result.mk true (some e) w [Event.dial w.ServerAddr, Event.fetch, Event.close] := by
    rcases h with hd | ⟨hd, hf, hne⟩
    · left
      unfold dojob
      rw [hd]
    · right
      unfold dojob
      rw [hd, hf]
      cases e with
      | nojoberr => exact absurd rfl hne
      | other msg => rfl
  have hloop : ∀ now cs, (loop w (⟨env, now⟩ :: cs)).outcome ≠ Outcome.returned (some e) := by
    intro now cs hc
    rcases loop_outcome (⟨env, now⟩ :: cs) w with h1 | h1
    · rw [h1] at hc
      cases hc
    · rw [h1] at hc
      cases hc
  rcases key with k | k
  · rw [k]
    refine ⟨rfl, rfl, ?_, rfl, rfl, rfl, ?_, hloop⟩
    · intro ev hev
      simp at hev
      exact Or.inl hev
    · intro now
      simp [body, k, logged, slept]
  · rw [k]
    refine ⟨rfl, rfl, ?_, rfl, rfl, rfl, ?_, hloop⟩
    · intro ev hev
      simp at hev
      rcases hev with h1 | h1 | h1
      · exact Or.inl h1
      · exact Or.inr (Or.inl h1)
      · exact Or.inr (Or.inr h1)
    · intro now
      simp [body, k, logged, slept]

theorem dojob_transport_error_witness :
    (fetchErrEnv.dial = some (Error.other "timeout") ∨
      (fetchErrEnv.dial = none ∧ fetchErrEnv.fetch = Except.error (Error.other "timeout") ∧
        Error.other "timeout" ≠ Error.nojoberr)) ∧
    (dojob sampleWorker fetchErrEnv).wait = true ∧
    (dojob sampleWorker fetchErrEnv).err = some (Error.other "timeout") ∧
    (dojob sampleWorker fetchErrEnv).w = sampleWorker :=
  have h : fetchErrEnv.dial = some (Error.other "timeout") ∨
      (fetchErrEnv.dial = none ∧ fetchErrEnv.fetch = Except.error (Error.other "timeout") ∧
        Error.other "timeout" ≠ Error.nojoberr) :=
    Or.inr ⟨rfl, rfl, by decide⟩
  have t := dojob_transport_error sampleWorker fetchErrEnv (Error.other "timeout") h
  ⟨h, t.1, t.2.1, t.2.2.2.2.2.1⟩

/-- C6: inside the loop of `Run`, a cycle stamps `lastjob` with the clock exactly when
it has fetched a job (before the first such cycle `lastjob` is the start of `Run`);
after the cycle `Run` returns exactly when `MaxIdle > 0` and the time elapsed since
`lastjob` is greater than `MaxIdle`, and then it returns a nil error; otherwise the
loop goes on with the next cycle.  When `MaxIdle` is zero the loop has not returned
after any number of cycles, whatever their results. -/
theorem run_idle_exit (w : Worker) (c : Cycle) (cs : List Cycle) :
    (∀ uid start, (Run w uid start none []).w.lastjob = start) ∧
    (dojob w c.env).w.lastjob = (if fetched c.env then c.env.now else w.lastjob) ∧
    ((∃ err w1 tr, body w c = Step.ret err w1 tr) ↔
      (w.MaxIdle > 0 ∧ c.now - (dojob w c.env).w.lastjob > w.MaxIdle)) ∧
    (∀ err w1 tr, body w c = Step.ret err w1 tr → err = none) ∧
    ((w.MaxIdle > 0 ∧ c.now - (dojob w c.env).w.lastjob > w.MaxIdle) →
      (loop w (c :: cs)).outcome = Outcome.returned none) ∧
    (¬ (w.MaxIdle > 0 ∧ c.now - (dojob w c.env).w.lastjob > w.MaxIdle) →
      (loop w (c :: cs)).outcome = (loop (dojob w c.env).w cs).outcome) ∧
    (w.MaxIdle = 0 → ∀ cycles, (loop w cycles).outcome = Outcome.running) := by
  have hidle : idle (dojob w c.env).w c.now = true ↔
      (w.MaxIdle > 0 ∧ c.now - (dojob w c.env).w.lastjob > w.MaxIdle) := by
    simp [idle, dojob_MaxIdle]
  refine ⟨?_, dojob_lastjob w c.env, ?_, ?_, ?_, ?_, ?_⟩
  · intro uid start
    unfold Run
    simp only []
    split <;> rfl
  · rw [← hidle]
    unfold body
    by_cases h : idle (dojob w c.env).w c.now = true <;> simp [h]
  · intro err w1 tr
    unfold body
    by_cases h : idle (dojob w c.env).w c.now = true
    · simp [h]
      intro h1 _ _
      exact h1.symm
    · simp [h]
  · intro h
    rw [← hidle] at h
    rw [loop_cons]
    unfold body
    simp [h]
  · intro h
    rw [← hidle] at h
    rw [loop_cons]
    unfold body
    simp [h]
  · intro h cycles
    exact loop_running_of_MaxIdle_zero cycles w h

/-- C9, counterexample: `sampleJob` is fetched and `PushOutfile` fails.  `Push` is sent
although no `PushOutfile` has returned without error and although the main goroutine
has not waited for the execution to finish. -/
theorem push_before_join_on_error :
    fetched outfileErrEnv = true ∧
    (dojob sampleWorker outfileErrEnv).trace.any isPush = true ∧
    onlyAfter isRundone isPush (dojob sampleWorker outfileErrEnv).trace = false ∧
    onlyAfter isPushOutfileOk isPush (dojob sampleWorker outfileErrEnv).trace = false := by
  decide

/-- C9, amended: in every cycle that fetches a job, on the success path and on the
`PushOutfile`-error path alike, `Push` is sent only after `PushOutfile` has returned
and only after the heartbeat's `done` channel has been closed, and the client
connection is closed only after `Push`.  When `PushOutfile` returns no error, `Push` is
moreover sent only after `PushOutfile` has returned with all output forwarded and
after the execution has finished. -/
theorem dojob_event_order (w : Worker) (env : Env) (j : Job) (hd : env.dial = none)
    (hf : env.fetch = Except.ok j) :
    onlyAfter isPushOutfile isPush (dojob w env).trace = true ∧
    onlyAfter isCloseDone isPush (dojob w env).trace = true ∧
    onlyAfter isPush isClose (dojob w env).trace = true ∧
    (env.pushOutfile = none →
      onlyAfter isPushOutfileOk isPush (dojob w env).trace = true ∧
      onlyAfter isRundone isPush (dojob w env).trace = true) := by
  rw [dojob_fetched w env j hd hf]
  cases hp : env.pushOutfile with
  | some e =>
    simp [runDefers, deferredPush, onlyAfter, isPush, isPushOutfile, isCloseDone, isClose]
  | none =>
    simp [runDefers, deferredPush, onlyAfter, isPush, isPushOutfile, isCloseDone, isClose,
      isPushOutfileOk, isRundone]

theorem dojob_event_order_witness :
    (okEnv.dial = none ∧ okEnv.fetch = Except.ok sampleJob) ∧
    onlyAfter isPushOutfile isPush (dojob sampleWorker okEnv).trace = true ∧
    onlyAfter isCloseDone isPush (dojob sampleWorker okEnv).trace = true ∧
    onlyAfter isPush isClose (dojob sampleWorker okEnv).trace = true ∧
    (okEnv.pushOutfile = none →
      onlyAfter isPushOutfileOk isPush (dojob sampleWorker okEnv).trace = true ∧
      onlyAfter isRundone isPush (dojob sampleWorker okEnv).trace = true) :=
  ⟨⟨rfl, rfl⟩, dojob_event_order sampleWorker okEnv sampleJob rfl rfl⟩

/-- C7: when the worker merges its `FileCache` into a fetched job, the infiles of the
job that is executed are the job's own infiles, unchanged and in place, followed by
added files; every added file is a cache entry (name and payload) under a name that
no infile of the job has; so the infiles under each name the job supplied are exactly
the job's own. -/
theorem dojob_merge_fills_gaps (w : Worker) (env : Env) (j : Job) (hd : env.dial = none)
    (hf : env.fetch = Except.ok j) :
    ∃ x added, executions (dojob w env).trace = [x] ∧ x.Infiles = j.Infiles ++ added ∧
      (∀ f ∈ added, (∀ g ∈ j.Infiles, g.Name ≠ f.Name) ∧
        w.FileCache.lookup f.Name = some f.Data) ∧
      (∀ n, (∃ g ∈ j.Infiles, g.Name = n) →
        x.Infiles.filter (fun f => decide (f.Name = n))
          = j.Infiles.filter (fun f => decide (f.Name = n))) := by
  obtain ⟨added, h1, h2⟩ := prepared_Infiles w j
  refine ⟨prepared w j, added, (dojob_fetched_parts w env j hd hf).1, h1, ?_, ?_⟩
  · intro f hfa
    exact ⟨(h2 f hfa).1, (h2 f hfa).2.1⟩
  · rintro n ⟨g, hg, hgn⟩
    rw [h1, List.filter_append]
    have hnil : added.filter (fun f => decide (f.Name = n)) = [] := by
      rw [List.filter_eq_nil_iff]
      intro f hfa hfn
      have hfn2 : f.Name = n := by simpa using hfn
      exact (h2 f hfa).1 g hg (hgn.trans hfn2.symm)
    rw [hnil, List.append_nil]

theorem dojob_merge_fills_gaps_witness :
    (okEnv.dial = none ∧ okEnv.fetch = Except.ok sampleJob) ∧
    ∃ x added, executions (dojob cachedWorker okEnv).trace = [x] ∧
      x.Infiles = sampleJob.Infiles ++ added ∧
      (∀ f ∈ added, (∀ g ∈ sampleJob.Infiles, g.Name ≠ f.Name) ∧
        cachedWorker.FileCache.lookup f.Name = some f.Data) ∧
      (∀ n, (∃ g ∈ sampleJob.Infiles, g.Name = n) →
        x.Infiles.filter (fun f => decide (f.Name = n))
          = sampleJob.Infiles.filter (fun f => decide (f.Name = n))) :=
  ⟨⟨rfl, rfl⟩, dojob_merge_fills_gaps cachedWorker okEnv sampleJob rfl rfl⟩

/-- C8, counterexample: the fetched job has two infiles named `tmpl`, both marked
`Cache`, with data `[1]` and `[2]`.  After the cycle the cache maps `tmpl` to `[2]`, so
it does not map the name of the first infile to that infile's data. -/
theorem cache_keeps_last_of_two :
    fetched twiceEnv = true ∧
    ({ Name := "tmpl", Data := [1], Cache := true } : File) ∈ twiceJob.Infiles ∧
    (dojob sampleWorker twiceEnv).w.FileCache.lookup "tmpl" = some [2] ∧
    (dojob sampleWorker twiceEnv).w.FileCache.lookup "tmpl" ≠ some [1] := by
  decide

/-- C8, amended: after the Preparing step of a cycle that fetched job `j`, the cache
maps every name to the data of the last `Cache`-marked infile of `j` with that name if
there is one, and to what it mapped before otherwise (the files merged in from the
cache are not marked `Cache`).  Hence for a `Cache`-marked infile whose data agrees
with every `Cache`-marked infile of the same name, the cache maps its name to its
data; every name that was in the cache is still in it; the payload under a name
changes only if the job has a `Cache`-marked infile of that name; and a later cycle
whose fetched job has no infile of a cached name has the cached payload added. -/
theorem dojob_cache_update (w : Worker) (env : Env) (j : Job) (hd : env.dial = none)
    (hf : env.fetch = Except.ok j) :
    (∀ n, (dojob w env).w.FileCache.lookup n =
      match lastCached n j.Infiles with
      | some f => some f.Data
      | none => w.FileCache.lookup n) ∧
    (∃ x, executions (dojob w env).trace = [x] ∧
      ∀ f ∈ x.Infiles, f.Cache = true → f ∈ j.Infiles) ∧
    (∀ f ∈ j.Infiles, f.Cache = true →
      (∀ g ∈ j.Infiles, g.Cache = true → g.Name = f.Name → g.Data = f.Data) →
      (dojob w env).w.FileCache.lookup f.Name = some f.Data) ∧
    (∀ n, n ∈ w.FileCache → n ∈ (dojob w env).w.FileCache) ∧
    (∀ n, (dojob w env).w.FileCache.lookup n ≠ w.FileCache.lookup n →
      ∃ f ∈ j.Infiles, f.Cache = true ∧ f.Name = n) ∧
    (∀ (env2 : Env) (j2 : Job) (n : String) (d : List Nat), env2.dial = none →
      env2.fetch = Except.ok j2 → (dojob w env).w.FileCache.lookup n = some d →
      (∀ g ∈ j2.Infiles, g.Name ≠ n) →
      ∃ x, executions (dojob (dojob w env).w env2).trace = [x] ∧
        ({ Name := n, Data := d, Cache := false } : File) ∈ x.Infiles) := by
  have hc := (dojob_fetched_parts w env j hd hf).2
  have hl : ∀ n, (dojob w env).w.FileCache.lookup n =
      match lastCached n j.Infiles with
      | some f => some f.Data
      | none => w.FileCache.lookup n := by
    intro n
    rw [hc, preparedCache_lookup]
  refine ⟨hl, ?_, ?_, ?_, ?_, ?_⟩
  · refine ⟨prepared w j, (dojob_fetched_parts w env j hd hf).1, ?_⟩
    obtain ⟨added, h1, h2⟩ := prepared_Infiles w j
    intro f hfx hfc
    rw [h1] at hfx
    rcases List.mem_append.mp hfx with h | h
    · exact h
    · rw [(h2 f h).2.2] at hfc
      cases hfc
  · intro f hfj hfc hagree
    obtain ⟨g, hg⟩ := lastCached_isSome f.Name j.Infiles f hfj hfc rfl
    obtain ⟨a, b, c⟩ := lastCached_some f.Name j.Infiles g hg
    rw [hl, hg]
    simp only []
    rw [hagree g a b c]
  · intro n hn
    rw [← AList.lookup_isSome] at hn ⊢
    rw [hl]
    cases lastCached n j.Infiles with
    | some g => rfl
    | none => exact hn
  · intro n hne
    cases hg : lastCached n j.Infiles with
    | some g =>
      obtain ⟨a, b, c⟩ := lastCached_some n j.Infiles g hg
      exact ⟨g, a, b, c⟩
    | none =>
      exfalso
      apply hne
      rw [hl, hg]
  · intro env2 j2 n d hd2 hf2 hlook hgap
    exact ⟨prepared (dojob w env).w j2,
      (dojob_fetched_parts (dojob w env).w env2 j2 hd2 hf2).1,
      prepared_fills (dojob w env).w j2 n d hlook hgap⟩

theorem dojob_cache_update_witness :
    (cachingEnv.dial = none ∧ cachingEnv.fetch = Except.ok cachingJob) ∧
    (dojob sampleWorker cachingEnv).w.FileCache.lookup "tmpl" = some [1, 2, 3] ∧
    (dojob sampleWorker cachingEnv).w.FileCache.lookup "in.txt" = none ∧
    (∃ x, executions (dojob (dojob sampleWorker cachingEnv).w okEnv).trace = [x] ∧
      ({ Name := "tmpl", Data := [1, 2, 3], Cache := false } : File) ∈ x.Infiles) :=
  have t := dojob_cache_update sampleWorker cachingEnv cachingJob rfl rfl
  ⟨⟨rfl, rfl⟩, (t.1 "tmpl").trans rfl, (t.1 "in.txt").trans rfl,
    t.2.2.2.2.2 okEnv sampleJob "tmpl" [1, 2, 3] rfl rfl ((t.1 "tmpl").trans rfl)
      (by decide)⟩

end Cloudlus

namespace Scen

/-- Under the preconditions of the build periods the quotient of `nperiods` is the
floor quotient: it is not negative and its multiple does not exceed the numerator. -/
theorem quotient_bounds (a p : Int) (ha : 0 ≤ a) (hp : 1 ≤ p) :
    0 ≤ Int.tdiv a p ∧ Int.tdiv a p * p ≤ a := by
  have hp0 : (0 : Int) ≤ p := by omega
  refine ⟨Int.tdiv_nonneg ha hp0, ?_⟩
  rw [Int.tdiv_eq_ediv ha hp0]
  exact Int.ediv_mul_le a (by omega)

/-- An arithmetic result that is a value of `int` is not changed by `wrap`. -/
theorem wrap_of_isInt (x : Int) (h : isInt x) : wrap x = x := by
  unfold wrap
  obtain ⟨h1, h2⟩ := h
  omega

/-- C10, counterexample: all four fields are values of `int`, `BuildPeriod >= 1` and
`SimDur - BuildOffset - TrailingDur = 2^63 - 1 >= 2`.  There are two build periods; the
time of the second, `2^62 + 1 + 2^62`, overflows to `-(2^63 - 1)`, which is not above
`BuildOffset` and does not differ from the first entry by `BuildPeriod`. -/
theorem periodTimes_overflow :
    (isInt overflowScenario.SimDur ∧ isInt overflowScenario.BuildOffset ∧
      isInt overflowScenario.TrailingDur ∧ isInt overflowScenario.BuildPeriod) ∧
    1 ≤ overflowScenario.BuildPeriod ∧
    2 ≤ overflowScenario.SimDur - overflowScenario.BuildOffset
      - overflowScenario.TrailingDur ∧
    overflowScenario.nperiods = some 2 ∧
    overflowScenario.periodTimes = some [4611686018427387905, -9223372036854775807] ∧
    ¬ (overflowScenario.BuildOffset < -9223372036854775807) ∧
    (-9223372036854775807 : Int) - 4611686018427387905 ≠ overflowScenario.BuildPeriod := by
  decide

/-- C10, amended: for a scenario with `BuildPeriod >= 1` and
`SimDur - BuildOffset - TrailingDur >= 2` in which `SimDur - BuildOffset`,
`SimDur - BuildOffset - TrailingDur` and `SimDur - TrailingDur - 1` are values of `int`
(no overflow; `BuildOffset` is one by its type), `nperiods()` and `periodTimes()`
return, `periodTimes()` has `nperiods()` entries, its first entry is `BuildOffset + 1`,
consecutive entries differ by exactly `BuildPeriod`, and every entry `t` satisfies
`BuildOffset < t <= SimDur - TrailingDur - 1`. -/
theorem periodTimes_spec (s : Scenario) (hB : isInt s.BuildOffset)
    (hp : 1 ≤ s.BuildPeriod) (hd : 2 ≤ s.SimDur - s.BuildOffset - s.TrailingDur)
    (h1 : isInt (s.SimDur - s.BuildOffset))
    (h2 : isInt (s.SimDur - s.BuildOffset - s.TrailingDur))
    (h3 : isInt (s.SimDur - s.TrailingDur - 1)) :
    ∃ n ts, s.nperiods = some n ∧ s.periodTimes = some ts ∧
      (ts.length : Int) = n ∧
      ts.head? = some (s.BuildOffset + 1) ∧
      (∀ i a b, ts[i]? = some a → ts[i + 1]? = some b → b - a = s.BuildPeriod) ∧
      (∀ t ∈ ts, s.BuildOffset < t ∧ t ≤ s.SimDur - s.TrailingDur - 1) := by
  have hp0 : s.BuildPeriod ≠ 0 := by omega
  obtain ⟨hB1, hB2⟩ := hB
  obtain ⟨h1a, h1b⟩ := h1
  obtain ⟨h2a, h2b⟩ := h2
  obtain ⟨h3a, h3b⟩ := h3
  have w1 : wrap (s.SimDur - s.BuildOffset) = s.SimDur - s.BuildOffset :=
    wrap_of_isInt _ ⟨h1a, h1b⟩
  have w2 : wrap (s.SimDur - s.BuildOffset - s.TrailingDur)
      = s.SimDur - s.BuildOffset - s.TrailingDur := wrap_of_isInt _ ⟨h2a, h2b⟩
  have w3 : wrap (s.SimDur - s.BuildOffset - s.TrailingDur - 2)
      = s.SimDur - s.BuildOffset - s.TrailingDur - 2 :=
    wrap_of_isInt _ ⟨by omega, by omega⟩
  obtain ⟨hq0, hq1⟩ :=
    quotient_bounds (s.SimDur - s.BuildOffset - s.TrailingDur - 2) s.BuildPeriod
      (by omega) hp
  obtain ⟨q, hq⟩ : ∃ q,
      Int.tdiv (s.SimDur - s.BuildOffset - s.TrailingDur - 2) s.BuildPeriod = q := ⟨_, rfl⟩
  rw [hq] at hq0 hq1
  have hqle : q * 1 ≤ q * s.BuildPeriod := Int.mul_le_mul_of_nonneg_left hp hq0
  have w4 : wrap q = q := wrap_of_isInt _ ⟨by omega, by omega⟩
  have w5 : wrap (q + 1) = q + 1 := wrap_of_isInt _ ⟨by omega, by omega⟩
  have hn : s.nperiods = some (q + 1) := by
    unfold Scenario.nperiods
    rw [if_neg hp0, w1, w2, w3, hq, w4, w5]
  have hnn : ¬ (q + 1 < 0) := by omega
  have hts : s.periodTimes
      = some ((List.range (q + 1).toNat).map (fun (i : Nat) => s.timeOf (i : Int))) := by
    unfold Scenario.periodTimes
    rw [hn]
    simp only [if_neg hnn]
  have hlen : ((q + 1).toNat : Int) = q + 1 := Int.toNat_of_nonneg (by omega)
  have htime : ∀ i : Nat, (i : Int) ≤ q →
      s.timeOf (i : Int) = (i : Int) * s.BuildPeriod + 1 + s.BuildOffset := by
    intro i hiq
    have hi0 : (0 : Int) ≤ (i : Int) := Int.ofNat_nonneg i
    have hmul : (i : Int) * s.BuildPeriod ≤ q * s.BuildPeriod :=
      Int.mul_le_mul_of_nonneg_right hiq (by omega)
    have hmul0 : 0 ≤ (i : Int) * s.BuildPeriod := Int.mul_nonneg hi0 (by omega)
    have v1 : wrap ((i : Int) * s.BuildPeriod) = (i : Int) * s.BuildPeriod :=
      wrap_of_isInt _ ⟨by omega, by omega⟩
    have v2 : wrap ((i : Int) * s.BuildPeriod + 1) = (i : Int) * s.BuildPeriod + 1 :=
      wrap_of_isInt _ ⟨by omega, by omega⟩
    have v3 : wrap ((i : Int) * s.BuildPeriod + 1 + s.BuildOffset)
        = (i : Int) * s.BuildPeriod + 1 + s.BuildOffset :=
      wrap_of_isInt _ ⟨by omega, by omega⟩
    unfold Scenario.timeOf
    rw [v1, v2, v3]
  refine ⟨q + 1, _, hn, hts, ?_, ?_, ?_, ?_⟩
  · simp only [List.length_map, List.length_range]
    exact hlen
  · have hpos : (q + 1).toNat ≠ 0 := by omega
    rw [List.head?_map, List.head?_range, if_neg hpos]
    have h0 := htime 0 (by simpa using hq0)
    simp only [Option.map_some', Option.some.injEq]
    rw [h0]
    simp
    omega
  · intro i a b ha hb
    rw [List.getElem?_map] at ha hb
    have hi1 : i + 1 < (q + 1).toNat := by
      by_contra hcon
      rw [List.getElem?_eq_none (by simpa using Nat.le_of_not_lt hcon)] at hb
      cases hb
    rw [List.getElem?_range (by omega)] at ha
    rw [List.getElem?_range hi1] at hb
    simp only [Option.map_some', Option.some.injEq] at ha hb
    rw [htime i (by omega)] at ha
    rw [htime (i + 1) (by omega)] at hb
    rw [← ha, ← hb]
    push_cast
    ring
  · intro t ht
    rw [List.mem_map] at ht
    obtain ⟨i, hi, rfl⟩ := ht
    rw [List.mem_range] at hi
    have hiq : (i : Int) ≤ q := by omega
    have hi0 : (0 : Int) ≤ (i : Int) := Int.ofNat_nonneg i
    have hmul : (i : Int) * s.BuildPeriod ≤ q * s.BuildPeriod :=
      Int.mul_le_mul_of_nonneg_right hiq (by omega)
    have hmul0 : 0 ≤ (i : Int) * s.BuildPeriod := Int.mul_nonneg hi0 (by omega)
    rw [htime i hiq]
    constructor <;> omega

theorem periodTimes_spec_witness :
    (isInt sampleScenario.BuildOffset ∧ 1 ≤ sampleScenario.BuildPeriod ∧
      2 ≤ sampleScenario.SimDur - sampleScenario.BuildOffset - sampleScenario.TrailingDur ∧
      isInt (sampleScenario.SimDur - sampleScenario.BuildOffset) ∧
      isInt (sampleScenario.SimDur - sampleScenario.BuildOffset
        - sampleScenario.TrailingDur) ∧
      isInt (sampleScenario.SimDur - sampleScenario.TrailingDur - 1)) ∧
    ∃ n ts, sampleScenario.nperiods = some n ∧ sampleScenario.periodTimes = some ts ∧
      (ts.length : Int) = n ∧
      ts.head? = some (sampleScenario.BuildOffset + 1) ∧
      (∀ i a b, ts[i]? = some a → ts[i + 1]? = some b →
        b - a = sampleScenario.BuildPeriod) ∧
      (∀ t ∈ ts, sampleScenario.BuildOffset < t ∧
        t ≤ sampleScenario.SimDur - sampleScenario.TrailingDur - 1) :=
  ⟨⟨by decide, by decide, by decide, by decide, by decide, by decide⟩,
    periodTimes_spec sampleScenario (by decide) (by decide) (by decide) (by decide)
      (by decide) (by decide)⟩

/-! ## Validation, loading and the transformation of variables -/

/-- With a nonzero build period `nperiods()` returns. -/
theorem nperiods_of_ne_zero (s : Scenario) (hp : s.BuildPeriod ≠ 0) :
    s.nperiods =
      some (wrap (wrap (Int.tdiv
        (wrap (wrap (wrap (s.SimDur - s.BuildOffset) - s.TrailingDur) - 2))
        s.BuildPeriod) + 1)) := by
  unfold Scenario.nperiods
  rw [if_neg hp]

/-- The search of `Validate` for a build with an undefined prototype finds one exactly
when there is one. -/
theorem find_undefined_isSome (s : Scenario) :
    (∃ p, s.Builds.find?
        (fun p => !((s.Facs.map (fun fac => fac.Proto)).contains p.Proto)) = some p) ↔
      ∃ b ∈ s.Builds, ∀ fac ∈ s.Facs, fac.Proto ≠ b.Proto := by
  constructor
  · rintro ⟨p, hp⟩
    have hmem := List.mem_of_find?_eq_some hp
    have hprop := List.find?_some hp
    refine ⟨p, hmem, ?_⟩
    intro fac hfac heq
    simp only [Bool.not_eq_true', List.contains_eq_any_beq, List.any_eq_false, List.mem_map,
      beq_iff_eq, forall_exists_index, and_imp, forall_apply_eq_imp_iff₂] at hprop
    exact hprop fac hfac heq.symm
  · rintro ⟨b, hb, hall⟩
    cases hfind : s.Builds.find?
        (fun p => !((s.Facs.map (fun fac => fac.Proto)).contains p.Proto)) with
    | some p => exact ⟨p, rfl⟩
    | none =>
      exfalso
      rw [List.find?_eq_none] at hfind
      have h := hfind b hb
      simp only [Bool.not_eq_true, Bool.not_eq_false', List.contains_eq_any_beq,
        List.any_eq_true, List.mem_map, beq_iff_eq, Bool.not_not] at h
      obtain ⟨x, ⟨fac, hfac, hx⟩, hxb⟩ := h
      exact hall fac hfac (hx.trans hxb.symm)

/-- No `float64` is both `> 0` and `== 0`. -/
theorem gtZero_eqZero_disjoint (x : Float64) : ¬ (x.gtZero = true ∧ x.eqZero = true) := by
  unfold Float64.gtZero Float64.eqZero
  simp only [Bool.and_eq_true, Bool.or_eq_true, decide_eq_true_eq]
  omega

/-- Two filters that exclude each other select no more than the whole list. -/
theorem filter_disjoint_length {α : Type} (p q : α → Bool) (l : List α)
    (h : ∀ x, ¬ (p x = true ∧ q x = true)) :
    (l.filter p).length + (l.filter q).length ≤ l.length := by
  induction l with
  | nil => simp
  | cons a l ih =>
    by_cases hp : p a = true
    · have hq : q a = false := by
        cases hqa : q a with
        | false => rfl
        | true => exact absurd ⟨hp, hqa⟩ (h a)
      rw [List.filter_cons_of_pos hp, List.filter_cons_of_neg (by simp [hq])]
      simp only [List.length_cons]
      omega
    · by_cases hq : q a = true
      · rw [List.filter_cons_of_neg hp, List.filter_cons_of_pos hq]
        simp only [List.length_cons]
        omega
      · rw [List.filter_cons_of_neg hp, List.filter_cons_of_neg hq]
        simp only [List.length_cons]
        omega

/-- The facility order of a period has fewer entries than there are variables per
period. -/
theorem periodFacOrder_length (s : Scenario) (varfacs : List Facility) (imp : Facility)
    (h : s.periodFacOrder = some (varfacs, imp)) :
    (varfacs.length : Int) + 1 ≤ s.nvarsPerPeriod := by
  unfold Scenario.periodFacOrder at h
  have hlen := filter_disjoint_length (fun fac : Facility => fac.Cap.gtZero)
    (fun fac : Facility => fac.Cap.eqZero) s.Facs (fun x => gtZero_eqZero_disjoint x.Cap)
  cases hr : s.reactors with
  | nil =>
    rw [hr] at h
    cases h
  | cons r rest =>
    rw [hr] at h
    simp only [Option.some.injEq, Prod.mk.injEq] at h
    have hr2 : (s.Facs.filter (fun fac : Facility => fac.Cap.gtZero)).length
        = rest.length + 1 := by
      have := congrArg List.length hr
      simpa [Scenario.reactors] using this
    have hv : varfacs.length = rest.length + s.notreactors.length := by
      rw [← h.1, List.length_append]
    have hn : s.notreactors.length
        = (s.Facs.filter (fun fac : Facility => fac.Cap.eqZero)).length := rfl
    unfold Scenario.nvarsPerPeriod
    simp only []
    omega

/-- An index at or beyond the length of a slice panics. -/
theorem index_none_of_le {α : Type} (xs : List α) (k : Int) (h : (xs.length : Int) ≤ k) :
    index xs k = none := by
  unfold index
  split
  · rfl
  · rw [List.getElem?_eq_none]
    omega

/-- A loop whose last pass panics from every state panics. -/
theorem foldlM_snoc_none {σ β : Type} (f : σ → β → Option σ) (l : List β) (x : β) (d : σ)
    (h : ∀ d, f d x = none) : (l ++ [x]).foldlM f d = none := by
  induction l generalizing d with
  | nil => simp [List.foldlM, h]
  | cons a l ih =>
    simp only [List.cons_append, List.foldlM_cons]
    cases f d a with
    | none => rfl
    | some d1 => exact ih d1

/-- The counters of a loop from zero with at least one pass end with `stop - 1`. -/
theorem counters_zero_snoc (stop : Int) (h : 1 ≤ stop) :
    counters 0 stop = counters 0 (stop - 1) ++ [stop - 1] := by
  unfold counters
  have h1 : (stop - 0).toNat = (stop - 1 - 0).toNat + 1 := by omega
  rw [h1, List.range_succ, List.map_append]
  simp only [List.map_cons, List.map_nil, Int.zero_add, List.append_cancel_left_eq,
    List.cons.injEq, and_true]
  omega

/-- The loop "handle other facilities" always panics: its last pass indexes the
facility order at `nvarsPerPeriod() - 1`, which is out of range. -/
theorem otherLoop_panics (ar : Arith) (s : Scenario) (vars : List Float64)
    (varfacs : List Facility) (i t : Int) (wantcap : Float64) (d : Deployed)
    (hlen : (varfacs.length : Int) + 1 ≤ s.nvarsPerPeriod) :
    (counters 0 s.nvarsPerPeriod).foldlM (otherPass ar s vars varfacs i t wantcap) d
      = none := by
  have h1 : 1 ≤ s.nvarsPerPeriod := by
    have := Int.ofNat_nonneg varfacs.length
    omega
  rw [counters_zero_snoc _ h1]
  apply foldlM_snoc_none
  intro d1
  unfold otherPass
  have hidx : index varfacs (s.nvarsPerPeriod - 1) = none :=
    index_none_of_le _ _ (by omega)
  cases index vars (wrap (wrap (s.BuildPeriod * i) + (s.nvarsPerPeriod - 1))) with
  | none => rfl
  | some v => simp only [hidx]

/-- Every pass of the loop over the build periods panics. -/
theorem periodPass_panics (ar : Arith) (s : Scenario) (vars : List Float64)
    (varfacs : List Facility) (imp : Facility) (d : Deployed) (it : Nat × Int)
    (hlen : (varfacs.length : Int) + 1 ≤ s.nvarsPerPeriod) :
    periodPass ar s vars varfacs imp d it = none := by
  unfold periodPass
  simp only []
  cases index s.MinPower it.2 with
  | none => rfl
  | some minpow =>
    cases index s.MaxPower it.2 with
    | none => rfl
    | some maxpow =>
      cases index vars (wrap (s.BuildPeriod * (it.1 : Int))) with
      | none => rfl
      | some powervar =>
        simp only []
        split
        · rfl
        · exact otherLoop_panics ar s vars varfacs _ _ _ _ hlen

/-- On every scenario that passes `Validate` and has at least one build period, with or
without a reactor, and on every `vars` of length `nvars()`, `TransformVars` panics,
whatever the floating-point arithmetic does. -/
theorem transformVars_panics (ar : Arith) (s : Scenario) (vars : List Float64) (np : Int)
    (hv : s.Validate = some none) (hnp : s.nperiods = some np)
    (hpos : 1 ≤ np) (hvars : (vars.length : Int) = wrap (s.nvarsPerPeriod * np)) :
    s.TransformVars ar vars = none := by
  have hnv : s.nvars = some (wrap (s.nvarsPerPeriod * np)) := by
    unfold Scenario.nvars
    rw [hnp]
  have hneg : ¬ (np < 0) := by omega
  have htimes : s.periodTimes
      = some ((List.range np.toNat).map (fun (i : Nat) => s.timeOf (i : Int))) := by
    unfold Scenario.periodTimes
    rw [hnp]
    simp only [if_neg hneg]
  obtain ⟨m, hm⟩ : ∃ m, np.toNat = m + 1 := ⟨np.toNat - 1, by omega⟩
  unfold Scenario.TransformVars
  rw [hv]
  simp only [hnv, hvars, ne_eq, not_true_eq_false, if_false]
  cases hpo : s.periodFacOrder with
  | none => rfl
  | some vf =>
    obtain ⟨varfacs, imp⟩ := vf
    have hlen := periodFacOrder_length s varfacs imp hpo
    simp only [htimes, hm, List.range_succ_eq_map, List.map_cons, List.enum_cons,
      List.foldlM_cons, periodPass_panics ar s vars varfacs imp _ _ hlen]
    rfl

/-- A slice of at least one zero-valued build has a build whose prototype is the empty
string, which `Validate` reports unless some facility has the empty prototype. -/
theorem find_in_zero_builds (protos : List String) (n : Nat) (hn : 1 ≤ n)
    (hp : "" ∉ protos) :
    (List.replicate n Build.zero).find? (fun p => !(protos.contains p.Proto))
      = some Build.zero := by
  obtain ⟨m, rfl⟩ : ∃ m, n = m + 1 := ⟨n - 1, by omega⟩
  have hc : protos.contains Build.zero.Proto = false := by
    have : Build.zero.Proto = "" := rfl
    rw [this]
    simpa using hp
  rw [List.replicate_succ, List.find?_cons]
  simp only [hc, Bool.not_false]

/-- When a decoded scenario has no `Builds`, at least one facility, none with the
empty prototype, at least one build period, power constraints of matching length,
and a number of variables that does not overflow, `Load` installs zero-valued builds and returns the error of `Validate` about the
undefined prototype "". -/
theorem load_default_builds_error (s : Scenario) (fname : String) (np : Int)
    (hb : s.Builds = []) (hf : 1 ≤ s.Facs.length) (hnp : s.nperiods = some np)
    (hmin : (s.MinPower.length : Int) = np) (hmax : (s.MaxPower.length : Int) = np)
    (hpos : 1 ≤ np) (hproto : ∀ fac ∈ s.Facs, fac.Proto ≠ "")
    (hrange : (s.Facs.length : Int) * np < 9223372036854775808) :
    (s.Load fname).1 = some (some (ScenError.undefinedProto "")) := by
  have hnv : s.nvarsPerPeriod = (s.Facs.length : Int) := by
    unfold Scenario.nvarsPerPeriod
    simp only []
    omega
  have hmul : 1 ≤ s.nvarsPerPeriod * np := by
    rw [hnv]
    have h1 : (1 : Int) ≤ (s.Facs.length : Int) := by omega
    calc (1 : Int) = 1 * 1 := by norm_num
      _ ≤ (s.Facs.length : Int) * np := Int.mul_le_mul h1 hpos (by norm_num) (by omega)
  have hlen : s.MinPower.length = s.MaxPower.length := by omega
  have hmem : "" ∉ s.Facs.map (fun fac => fac.Proto) := by
    intro h
    obtain ⟨fac, hfac, hp⟩ := List.mem_map.mp h
    exact hproto fac hfac hp
  have hw : wrap (s.nvarsPerPeriod * np) = s.nvarsPerPeriod * np := by
    apply wrap_of_isInt
    rw [hnv] at hmul ⊢
    exact ⟨by omega, hrange⟩
  have hfind := find_in_zero_builds (s.Facs.map (fun fac => fac.Proto))
    (wrap (s.nvarsPerPeriod * np)).toNat (by omega) hmem
  have hper : ¬ (np ≠ (s.MinPower.length : Int)) := by omega
  have hneg : ¬ (wrap (s.nvarsPerPeriod * np) < 0) := by omega
  unfold Scenario.Load
  simp only [hb, List.length_nil, if_true]
  have hnvars : Scenario.nvars { s with File := fname, Builds := [] }
      = some (wrap (s.nvarsPerPeriod * np)) := by
    unfold Scenario.nvars Scenario.nperiods
    unfold Scenario.nperiods at hnp
    simp only [] at hnp ⊢
    rw [hnp]
    rfl
  rw [hnvars]
  simp only [if_neg hneg]
  unfold Scenario.Validate Scenario.nperiods
  unfold Scenario.nperiods at hnp
  simp only [] at hnp ⊢
  rw [if_neg (not_not.mpr hlen), hnp]
  simp only [if_neg hper, hfind]
  rfl

/-- C11, the code at the failing input: the build period is zero, `MinPower` and
`MaxPower` are both empty, and the only build names a prototype that no facility has.
The scenario is ill-configured, yet `Validate` returns no error, against its own
comment: it panics in `nperiods()` on the division by zero. -/
theorem validate_zero_period_panics :
    (∃ b ∈ zeroPeriodScenario.Builds, ∀ fac ∈ zeroPeriodScenario.Facs, fac.Proto ≠ b.Proto) ∧
    zeroPeriodScenario.MinPower.length = zeroPeriodScenario.MaxPower.length ∧
    zeroPeriodScenario.nperiods = none ∧
    zeroPeriodScenario.Validate = none ∧
    ¬ (∃ e, zeroPeriodScenario.Validate = some (some e)) := by
  have hv : zeroPeriodScenario.Validate = none := by decide
  refine ⟨by decide, by decide, by decide, hv, ?_⟩
  rintro ⟨e, he⟩
  rw [hv] at he
  cases he

/-- What `Validate` does when the build period is not zero: `nperiods()` returns and
`Validate` returns; it returns an error if and only if `len(MinPower) != len(MaxPower)`,
or `len(MinPower) != nperiods()`, or some entry of `Builds` names a prototype that is
not the `Proto` of any facility in `Facs`; and it returns nil if and only if none of
these holds. -/
theorem validate_spec (s : Scenario) (hp : s.BuildPeriod ≠ 0) :
    ∃ np, s.nperiods = some np ∧
      ((∃ e, s.Validate = some (some e)) ↔
        (s.MinPower.length ≠ s.MaxPower.length ∨ (s.MinPower.length : Int) ≠ np ∨
          ∃ b ∈ s.Builds, ∀ fac ∈ s.Facs, fac.Proto ≠ b.Proto)) ∧
      (s.Validate = some none ↔
        ¬ (s.MinPower.length ≠ s.MaxPower.length ∨ (s.MinPower.length : Int) ≠ np ∨
          ∃ b ∈ s.Builds, ∀ fac ∈ s.Facs, fac.Proto ≠ b.Proto)) := by
  refine ⟨_, nperiods_of_ne_zero s hp, ?_⟩
  generalize hnp :
    wrap (wrap (Int.tdiv
      (wrap (wrap (wrap (s.SimDur - s.BuildOffset) - s.TrailingDur) - 2))
      s.BuildPeriod) + 1) = np
  have hn : s.nperiods = some np := by rw [nperiods_of_ne_zero s hp, hnp]
  have hfind := find_undefined_isSome s
  by_cases hlen : s.MinPower.length ≠ s.MaxPower.length
  · have hv : s.Validate
        = some (some (ScenError.powerLengths s.MaxPower.length s.MinPower.length)) := by
      unfold Scenario.Validate
      rw [if_pos hlen]
    rw [hv]
    constructor
    · exact ⟨fun _ => Or.inl hlen, fun _ => ⟨_, rfl⟩⟩
    · constructor
      · intro h
        cases h
      · intro h
        exact absurd (Or.inl hlen) h
  · by_cases hper : np ≠ (s.MinPower.length : Int)
    · have hv : s.Validate = some (some (ScenError.periods s.MinPower.length np)) := by
        unfold Scenario.Validate
        rw [if_neg hlen, hn]
        simp only [if_pos hper]
      rw [hv]
      constructor
      · exact ⟨fun _ => Or.inr (Or.inl (fun h => hper h.symm)), fun _ => ⟨_, rfl⟩⟩
      · constructor
        · intro h
          cases h
        · intro h
          exact absurd (Or.inr (Or.inl (fun h2 => hper h2.symm))) h
    · have hper2 : (s.MinPower.length : Int) = np := by
        by_contra hcon
        exact hper (fun h => hcon h.symm)
      cases hf : s.Builds.find?
          (fun p => !((s.Facs.map (fun fac => fac.Proto)).contains p.Proto)) with
      | some p =>
        have hv : s.Validate = some (some (ScenError.undefinedProto p.Proto)) := by
          unfold Scenario.Validate
          rw [if_neg hlen, hn]
          simp only [if_neg hper, hf]
        have hbad := hfind.mp ⟨p, hf⟩
        rw [hv]
        constructor
        · exact ⟨fun _ => Or.inr (Or.inr hbad), fun _ => ⟨_, rfl⟩⟩
        · constructor
          · intro h
            cases h
          · intro h
            exact absurd (Or.inr (Or.inr hbad)) h
      | none =>
        have hv : s.Validate = some none := by
          unfold Scenario.Validate
          rw [if_neg hlen, hn]
          simp only [if_neg hper, hf]
        have hgood : ¬ ∃ b ∈ s.Builds, ∀ fac ∈ s.Facs, fac.Proto ≠ b.Proto := by
          intro hb
          obtain ⟨p, hp2⟩ := hfind.mpr hb
          rw [hf] at hp2
          cases hp2
        have hnone : ¬ (s.MinPower.length ≠ s.MaxPower.length ∨
            (s.MinPower.length : Int) ≠ np ∨
            ∃ b ∈ s.Builds, ∀ fac ∈ s.Facs, fac.Proto ≠ b.Proto) := by
          rintro (h | h | h)
          · exact hlen h
          · exact h hper2
          · exact hgood h
        rw [hv]
        constructor
        · constructor
          · rintro ⟨e, he⟩
            cases he
          · intro h
            exact absurd h hnone
        · exact ⟨fun _ => hnone, fun _ => rfl⟩

theorem validate_spec_witness :
    ghostScenario.BuildPeriod ≠ 0 ∧
    ∃ np, ghostScenario.nperiods = some np ∧
      ((∃ e, ghostScenario.Validate = some (some e)) ↔
        (ghostScenario.MinPower.length ≠ ghostScenario.MaxPower.length ∨
          (ghostScenario.MinPower.length : Int) ≠ np ∨
          ∃ b ∈ ghostScenario.Builds, ∀ fac ∈ ghostScenario.Facs, fac.Proto ≠ b.Proto)) ∧
      (ghostScenario.Validate = some none ↔
        ¬ (ghostScenario.MinPower.length ≠ ghostScenario.MaxPower.length ∨
          (ghostScenario.MinPower.length : Int) ≠ np ∨
          ∃ b ∈ ghostScenario.Builds, ∀ fac ∈ ghostScenario.Facs, fac.Proto ≠ b.Proto)) :=
  ⟨by decide, validate_spec ghostScenario (by decide)⟩

/-- C12, the code at the failing input: `sampleScenario` passes `Validate` and has a
reactor, and `sampleVars` has `nvars() = 8` entries, yet `TransformVars` panics for
every floating-point arithmetic.  The second period time is 19 and `MinPower[19]` is
out of range for the eight entries of `MinPower`; the facility order of a period is
empty, so `varfacs[0]` in the first pass is out of range as well. -/
theorem transformVars_sample_panics (ar : Arith) :
    sampleScenario.Validate = some none ∧
    sampleScenario.reactors ≠ [] ∧
    sampleScenario.nvars = some 8 ∧
    sampleVars.length = 8 ∧
    sampleScenario.periodTimes = some [7, 19, 31, 43, 55, 67, 79, 91] ∧
    sampleScenario.MinPower.length = 8 ∧
    index sampleScenario.MinPower 19 = none ∧
    sampleScenario.periodFacOrder = some ([], Facility.zero) ∧
    sampleScenario.TransformVars ar sampleVars = none :=
  ⟨by decide, by decide, by decide, by decide, by decide, by decide, by decide, by decide,
    rfl⟩

/-- C13, the code at the failing input: the decoded scenario has no `Builds`, a build
period of twelve, one facility, and `MinPower` and `MaxPower` of length
`nperiods() = 8`.  `Load` installs `nvars() = 8` zero-valued builds, whose prototype
is the empty string, and returns the error of `Validate` about the undefined
prototype "" rather than nil. -/
theorem load_without_builds_fails :
    noBuildsScenario.Builds = [] ∧
    1 ≤ noBuildsScenario.BuildPeriod ∧
    1 ≤ noBuildsScenario.Facs.length ∧
    noBuildsScenario.nperiods = some 8 ∧
    noBuildsScenario.MinPower.length = 8 ∧
    noBuildsScenario.MaxPower.length = 8 ∧
    (noBuildsScenario.Load "scen.json").2.Builds = List.replicate 8 Build.zero ∧
    (noBuildsScenario.Load "scen.json").1 = some (some (ScenError.undefinedProto "")) := by
  decide

end Scen
